import Mathlib

/-! occam: the `pack build` test helper (`pack.go`)

A shallow embedding of `Pack`, `PackBuild`, the chained setters and
`PackBuild.Execute`, followed by theorems about the argument list that
`Execute` hands to the `pack` executable and about how it correlates the
results of its two collaborators.

Modelling conventions.

* Go `string` is Lean `String`.  Go orders strings by their bytes; on
  well-formed UTF-8 that is the order of the code point sequences, which is
  what `stringLess` computes and what `<` on `String` means.
* A `[]string` is a slice header (`Slice`) pointing into a backing array that
  lives in the `World`; `append` follows the Go semantics (write in place while
  the capacity suffices, otherwise move to a freshly allocated array).
* A `map[string]string` is the list of its entries in the order in which the
  `range` loop of this run visits them.  Go leaves that order unspecified, so
  theorems about a map quantify over every enumeration of its entries.
* `error` is `Option GoError` (`none` is `nil`).
* `bytes.Buffer` objects live in the `World` and are handed around by
  reference (`BufRef`), so that two writers can be the same buffer.
* Calls to the two collaborators are recorded, in order, in `World.calls`.
-/

namespace Occam

/-! ## Go runtime and standard library pieces used by `pack.go` -/

/-- Go error values: either an error carrying only a message, or the
`*fmt.wrapError` built by `fmt.Errorf` with the `%w` verb. -/
inductive GoError where
  | errorString (s : String)
  | wrapError (msg : String) (err : GoError)
  deriving DecidableEq

/-- The `Error()` method. -/
def GoError.Error : GoError → String
  | .errorString s => s
  | .wrapError msg _ => msg

/-- The `Unwrap()` method as seen by `errors.Unwrap`: `nil` for an error that
wraps nothing. -/
def GoError.Unwrap : GoError → Option GoError
  | .errorString _ => none
  | .wrapError _ err => some err

/-- The call `fmt.Errorf(pre + "%w", err)` for a non-nil `err`: the message is
`pre` followed by `err.Error()`, and the result wraps `err`. -/
def fmtErrorfW (pre : String) (err : GoError) : GoError :=
  .wrapError (pre ++ err.Error) err

/-- Go string comparison `a < b` on the code point sequences. -/
def lessChars : List Char → List Char → Bool
  | _, [] => false
  | [], _ :: _ => true
  | a :: as, b :: bs =>
    if a.toNat < b.toNat then true
    else if a = b then lessChars as bs
    else false

/-- Go string comparison `a < b`. -/
def stringLess (a b : String) : Bool :=
  lessChars a.data b.data

/-- Insert `s` into an increasing list, after the elements smaller than it. -/
def insertString (s : String) : List String → List String
  | [] => [s]
  | t :: ts => if stringLess t s then t :: insertString s ts else s :: t :: ts

/-- Model of `sort.Strings`: the strings in increasing order.  Equal strings
are indistinguishable, so every sorting algorithm returns this list. -/
def sortStrings : List String → List String
  | [] => []
  | s :: ss => insertString s (sortStrings ss)

/-- Header of a `[]string`: the backing array it points into (by index into
`World.arrays`), its length and its capacity.  The `nil` slice has length and
capacity 0. -/
structure Slice where
  arr : Nat
  len : Nat
  cap : Nat
  deriving DecidableEq

/-- The `nil` slice. -/
def Slice.nil : Slice := ⟨0, 0, 0⟩

/-- Reference to a `bytes.Buffer` (index into `World.buffers`). -/
abbrev BufRef := Nat

/-- The `pexec.Execution` fields that `pack.go` sets. -/
structure Execution where
  Args : List String
  Stdout : BufRef
  Stderr : BufRef
  deriving DecidableEq

/-- A call made to one of the two collaborators. -/
inductive Call where
  | Execute (execution : Execution)
  | Inspect (ref : String)
  deriving DecidableEq

/-- The part of the program state that `pack.go` touches: the backing arrays of
string slices, the `bytes.Buffer` objects, and the collaborator calls made so
far (oldest first). -/
structure World where
  arrays : List (List String)
  buffers : List String
  calls : List Call
  deriving DecidableEq

/-- How `append` chooses the capacity of a new backing array from the old
capacity and the required length.  The Go runtime fixes one such rule; the only
property relied on is that the new array is large enough. -/
structure GrowthPolicy where
  newcap : Nat → Nat → Nat
  enough : ∀ old needed, needed ≤ newcap old needed

/-- A growth rule: at least double, and at least what is needed. -/
def GrowthPolicy.doubling : GrowthPolicy where
  newcap old needed := max needed (2 * old)
  enough _ _ := le_max_left _ _

/-- A slice is valid in a world when its length is within its capacity and its
capacity within its backing array. -/
def World.validSlice (w : World) (s : Slice) : Prop :=
  s.len ≤ s.cap ∧ s.cap ≤ (w.arrays.getD s.arr []).length

instance (w : World) (s : Slice) : Decidable (w.validSlice s) := by
  unfold World.validSlice
  infer_instance

/-- The elements of a slice, `s[0], ..., s[len(s)-1]`. -/
def World.load (w : World) (s : Slice) : List String :=
  (w.arrays.getD s.arr []).take s.len

/-- The array `a` after `copy(a[off:], xs)`. -/
def writeAt (a : List String) (off : Nat) (xs : List String) : List String :=
  a.take off ++ xs ++ a.drop (off + xs.length)

/-- The built-in `append(s, xs...)` on a valid slice: when the capacity suffices the elements
are written into the backing array of `s`, after its length; otherwise a new
array is allocated, the elements of `s` are copied to it and `xs` follows. -/
def World.append (g : GrowthPolicy) (w : World) (s : Slice) (xs : List String) :
    Slice × World :=
  if s.len + xs.length ≤ s.cap then
    ({ s with len := s.len + xs.length },
     { w with arrays := w.arrays.set s.arr (writeAt (w.arrays.getD s.arr []) s.len xs) })
  else
    let newcap := g.newcap s.cap (s.len + xs.length)
    ({ arr := w.arrays.length, len := s.len + xs.length, cap := newcap },
     { w with arrays := w.arrays ++
        [w.load s ++ xs ++ List.replicate (newcap - (s.len + xs.length)) ""] })

/-- The call `bytes.NewBuffer(nil)`: a new, empty buffer. -/
def World.newBuffer (w : World) : BufRef × World :=
  (w.buffers.length, { w with buffers := w.buffers ++ [""] })

/-- The method `(*bytes.Buffer).Write`: append to the buffer's content. -/
def World.write (w : World) (b : BufRef) (p : String) : World :=
  { w with buffers := w.buffers.set b (w.buffers.getD b "" ++ p) }

/-- The method `(*bytes.Buffer).String`. -/
def World.bufferString (w : World) (b : BufRef) : String :=
  w.buffers.getD b ""

/-! ## Collaborators -/

/-- The writer field of a `pexec.Execution` that a write goes through. -/
inductive Stream where
  | Stdout
  | Stderr
  deriving DecidableEq

/-- What one call of `Executable.Execute` does: the writes it makes to the
writers of the execution, in order, and the three values it returns. -/
structure ExecutableResult where
  writes : List (Stream × String)
  stdout : String
  stderr : String
  err : Option GoError

/-- The `Executable` interface. -/
abbrev Executable := Execution → ExecutableResult

/-- The `DockerImageClient` interface, over the type of `Image` values. -/
abbrev DockerImageClient (Image : Type) := String → Image × Option GoError

/-- The buffer behind a writer field of an execution. -/
def Execution.writer (e : Execution) : Stream → BufRef
  | .Stdout => e.Stdout
  | .Stderr => e.Stderr

/-- Invoke the executable: record the call, perform its writes on the writers
of the execution, and return its result. -/
def World.callExecutable (w : World) (executable : Executable) (e : Execution) :
    ExecutableResult × World :=
  let r := executable e
  let w := { w with calls := w.calls ++ [Call.Execute e] }
  (r, r.writes.foldl (fun w wr => w.write (e.writer wr.1) wr.2) w)

/-- Invoke the image client: record the call and return its result. -/
def World.callInspect {Image : Type} (w : World) (client : DockerImageClient Image)
    (ref : String) : (Image × Option GoError) × World :=
  (client ref, { w with calls := w.calls ++ [Call.Inspect ref] })

/-! ## `pack.go` -/

/-- The struct `PackBuild`. -/
structure PackBuild (Image : Type) where
  executable : Executable
  dockerImageClient : DockerImageClient Image
  verbose : Bool
  noColor : Bool
  buildpacks : Slice
  network : String
  builder : String
  clearCache : Bool
  env : List (String × String)
  noPull : Bool

/-- The struct `Pack`. -/
structure Pack (Image : Type) where
  Build : PackBuild Image

/-- `NewPack`, with the two default collaborators (built outside `pack.go`)
passed in. -/
def NewPack {Image : Type} (packExecutable : Executable)
    (dockerImage : DockerImageClient Image) : Pack Image :=
  { Build :=
    { executable := packExecutable
      dockerImageClient := dockerImage
      verbose := false
      noColor := false
      buildpacks := Slice.nil
      network := ""
      builder := ""
      clearCache := false
      env := []
      noPull := false } }

variable {Image : Type}

def Pack.WithExecutable (p : Pack Image) (executable : Executable) : Pack Image :=
  { p with Build := { p.Build with executable := executable } }

def Pack.WithDockerImageClient (p : Pack Image) (client : DockerImageClient Image) :
    Pack Image :=
  { p with Build := { p.Build with dockerImageClient := client } }

def Pack.WithVerbose (p : Pack Image) : Pack Image :=
  { p with Build := { p.Build with verbose := true } }

def Pack.WithNoColor (p : Pack Image) : Pack Image :=
  { p with Build := { p.Build with noColor := true } }

def PackBuild.WithBuildpacks (g : GrowthPolicy) (w : World) (pb : PackBuild Image)
    (buildpacks : List String) : PackBuild Image × World :=
  let r := w.append g pb.buildpacks buildpacks
  ({ pb with buildpacks := r.1 }, r.2)

def PackBuild.WithNetwork (pb : PackBuild Image) (name : String) : PackBuild Image :=
  { pb with network := name }

def PackBuild.WithBuilder (pb : PackBuild Image) (name : String) : PackBuild Image :=
  { pb with builder := name }

def PackBuild.WithClearCache (pb : PackBuild Image) : PackBuild Image :=
  { pb with clearCache := true }

def PackBuild.WithEnv (pb : PackBuild Image) (env : List (String × String)) :
    PackBuild Image :=
  { pb with env := env }

def PackBuild.WithNoPull (pb : PackBuild Image) : PackBuild Image :=
  { pb with noPull := true }

/-- Lines 101-144 of `Execute`: the argument list.  `args` is a local slice
that nothing else refers to, so it is a plain list here; `vars` is the local
slice `variables` (a reserved word here). -/
def PackBuild.args (w : World) (pb : PackBuild Image) (name path : String) : List String :=
  let args := ["build", name]
  let args := if pb.verbose then args ++ ["--verbose"] else args
  let args := if pb.noColor then args ++ ["--no-color"] else args
  let args := args ++ ["--path", path]
  let args := (w.load pb.buildpacks).foldl
    (fun args buildpack => args ++ ["--buildpack", buildpack]) args
  let args := if pb.network ≠ "" then args ++ ["--network", pb.network] else args
  let args := if pb.builder ≠ "" then args ++ ["--builder", pb.builder] else args
  let args := if pb.clearCache then args ++ ["--clear-cache"] else args
  let args :=
    if pb.env.length ≠ 0 then
      let vars := pb.env.foldl
        (fun vars kv => vars ++ [kv.1 ++ "=" ++ kv.2]) []
      let vars := sortStrings vars
      vars.foldl (fun args v => args ++ ["--env", v]) args
    else args
  let args := if pb.noPull then args ++ ["--no-pull"] else args
  args

/-- The method `PackBuild.Execute`: returns the image, the log buffer and the error, and
the world it leaves behind. -/
def PackBuild.Execute [Inhabited Image] (w : World) (pb : PackBuild Image)
    (name path : String) : (Image × BufRef × Option GoError) × World :=
  let args := pb.args w name path
  let (buildLogBuffer, w) := w.newBuffer
  let (r, w) := w.callExecutable pb.executable
    { Args := args, Stdout := buildLogBuffer, Stderr := buildLogBuffer }
  match r.err with
  | some err => ((default, buildLogBuffer, some (fmtErrorfW "failed to pack build: " err)), w)
  | none =>
    let (r, w) := w.callInspect pb.dockerImageClient name
    match r.2 with
    | some err =>
      ((default, buildLogBuffer, some (fmtErrorfW "failed to pack build: " err)), w)
    | none => ((r.1, buildLogBuffer, none), w)

/-! ## Vocabulary of the specification -/

/-- The `pexec.Execution` value that `Execute` builds (lines 146-151): the
argument list, and the new log buffer as both writers. -/
def PackBuild.execution (w : World) (pb : PackBuild Image) (name path : String) : Execution :=
  { Args := pb.args w name path, Stdout := w.buffers.length, Stderr := w.buffers.length }

/-- The strings of a list, one after the other. -/
def concatStrings : List String → String
  | [] => ""
  | s :: ss => s ++ concatStrings ss

/-- Everything a call of the executable wrote to its writers, in the order of
the writes. -/
def ExecutableResult.output (r : ExecutableResult) : String :=
  concatStrings (r.writes.map Prod.snd)

/-- The world right after the executable returned in `Execute`: the log buffer
exists, holds the output, and the call is on record. -/
def PackBuild.afterExecutable (w : World) (pb : PackBuild Image) (name path : String) : World :=
  { arrays := w.arrays
    buffers := w.buffers ++ [(pb.executable (pb.execution w name path)).output]
    calls := w.calls ++ [Call.Execute (pb.execution w name path)] }

/-- The argument lists of the executable calls in a trace, oldest first. -/
def executableArgs : List Call → List (List String)
  | [] => []
  | .Execute e :: cs => e.Args :: executableArgs cs
  | .Inspect _ :: cs => executableArgs cs

/-- The `KEY=VALUE` strings of the entries of an environment mapping. -/
def envTokens (env : List (String × String)) : List String :=
  env.map (fun kv => kv.1 ++ "=" ++ kv.2)

/-- The argument list as the specification words it (section 4.2, steps 1 to
10): the concatenation of the ten groups, where the environment group lists the
`KEY=VALUE` strings in increasing order. -/
def specArgs (w : World) (pb : PackBuild Image) (name path : String) : List String :=
  ["build", name]
    ++ (if pb.verbose then ["--verbose"] else [])
    ++ (if pb.noColor then ["--no-color"] else [])
    ++ ["--path", path]
    ++ (w.load pb.buildpacks).flatMap (fun b => ["--buildpack", b])
    ++ (if pb.network ≠ "" then ["--network", pb.network] else [])
    ++ (if pb.builder ≠ "" then ["--builder", pb.builder] else [])
    ++ (if pb.clearCache then ["--clear-cache"] else [])
    ++ (List.insertionSort (· ≤ ·) (envTokens pb.env)).flatMap (fun v => ["--env", v])
    ++ (if pb.noPull then ["--no-pull"] else [])

/-- The four settings that are emitted as a flag without a value. -/
inductive BoolSetting where
  | verbose
  | noColor
  | clearCache
  | noPull
  deriving DecidableEq

/-- The flag token of a boolean setting. -/
def BoolSetting.token : BoolSetting → String
  | .verbose => "--verbose"
  | .noColor => "--no-color"
  | .clearCache => "--clear-cache"
  | .noPull => "--no-pull"

/-- Whether a boolean setting is turned on in a configuration. -/
def BoolSetting.isOn (pb : PackBuild Image) : BoolSetting → Bool
  | .verbose => pb.verbose
  | .noColor => pb.noColor
  | .clearCache => pb.clearCache
  | .noPull => pb.noPull

/-- The setter that turns a boolean setting on: `Pack.WithVerbose`,
`Pack.WithNoColor`, `PackBuild.WithClearCache` or `PackBuild.WithNoPull`. -/
def BoolSetting.turnOn (p : Pack Image) : BoolSetting → Pack Image
  | .verbose => p.WithVerbose
  | .noColor => p.WithNoColor
  | .clearCache => { p with Build := p.Build.WithClearCache }
  | .noPull => { p with Build := p.Build.WithNoPull }

/-- The strings supplied by the caller that `Execute` copies into the argument
list as they are: the name, the path, the buildpacks, the network and the
builder. -/
def PackBuild.suppliedValues (w : World) (pb : PackBuild Image) (name path : String) :
    List String :=
  [name, path] ++ w.load pb.buildpacks ++ [pb.network, pb.builder]

/-- The option names that can come right after a value-less flag. -/
def flagFollowers : List String := ["--no-color", "--path", "--env", "--no-pull"]

/-- Chained calls `pb.WithBuildpacks(xs1...). ... .WithBuildpacks(xsn...)`, each
on the result of the one before. -/
def PackBuild.WithBuildpacksChain (g : GrowthPolicy) (w : World) (pb : PackBuild Image) :
    List (List String) → PackBuild Image × World
  | [] => (pb, w)
  | xs :: xss =>
    PackBuild.WithBuildpacksChain g (pb.WithBuildpacks g w xs).2 (pb.WithBuildpacks g w xs).1 xss

/-- The fields of a `PackBuild`. -/
inductive Field where
  | executable
  | dockerImageClient
  | verbose
  | noColor
  | buildpacks
  | network
  | builder
  | clearCache
  | env
  | noPull
  deriving DecidableEq

/-- Two configurations hold the same value in a field (for `buildpacks`: the
same slice header). -/
def PackBuild.sameField (a b : PackBuild Image) : Field → Prop
  | .executable => a.executable = b.executable
  | .dockerImageClient => a.dockerImageClient = b.dockerImageClient
  | .verbose => a.verbose = b.verbose
  | .noColor => a.noColor = b.noColor
  | .buildpacks => a.buildpacks = b.buildpacks
  | .network => a.network = b.network
  | .builder => a.builder = b.builder
  | .clearCache => a.clearCache = b.clearCache
  | .env => a.env = b.env
  | .noPull => a.noPull = b.noPull

/-- A call of one of the ten setters, with its argument. -/
inductive Setter (Image : Type) where
  | WithExecutable (executable : Executable)
  | WithDockerImageClient (client : DockerImageClient Image)
  | WithVerbose
  | WithNoColor
  | WithBuildpacks (buildpacks : List String)
  | WithNetwork (name : String)
  | WithBuilder (name : String)
  | WithClearCache
  | WithEnv (env : List (String × String))
  | WithNoPull

/-- The field that a setter names. -/
def Setter.field : Setter Image → Field
  | .WithExecutable _ => .executable
  | .WithDockerImageClient _ => .dockerImageClient
  | .WithVerbose => .verbose
  | .WithNoColor => .noColor
  | .WithBuildpacks _ => .buildpacks
  | .WithNetwork _ => .network
  | .WithBuilder _ => .builder
  | .WithClearCache => .clearCache
  | .WithEnv _ => .env
  | .WithNoPull => .noPull

/-- Make a setter call on a `Pack`: the four `Pack` setters on the value itself,
the six `PackBuild` setters on its `Build` field. -/
def Setter.apply (g : GrowthPolicy) (w : World) (p : Pack Image) :
    Setter Image → Pack Image × World
  | .WithExecutable executable => (p.WithExecutable executable, w)
  | .WithDockerImageClient client => (p.WithDockerImageClient client, w)
  | .WithVerbose => (p.WithVerbose, w)
  | .WithNoColor => (p.WithNoColor, w)
  | .WithBuildpacks buildpacks =>
    ({ p with Build := (p.Build.WithBuildpacks g w buildpacks).1 },
      (p.Build.WithBuildpacks g w buildpacks).2)
  | .WithNetwork name => ({ p with Build := p.Build.WithNetwork name }, w)
  | .WithBuilder name => ({ p with Build := p.Build.WithBuilder name }, w)
  | .WithClearCache => ({ p with Build := p.Build.WithClearCache }, w)
  | .WithEnv env => ({ p with Build := p.Build.WithEnv env }, w)
  | .WithNoPull => ({ p with Build := p.Build.WithNoPull }, w)

/-- An empty string directly after the token `a` is possible only for the
values that may be empty: the name after `build`, the path after `--path`, a
buildpack after `--buildpack`. -/
def emptyMayFollow (a b : String) : Prop :=
  b = "" → a = "build" ∨ a = "--path" ∨ a = "--buildpack"

/-- Every empty string of the list that has a predecessor stands where a value
may be empty (see `emptyMayFollow`). -/
def emptyOnlyAsValue : List String → Prop
  | a :: b :: l => emptyMayFollow a b ∧ emptyOnlyAsValue (b :: l)
  | _ => True

/-- The nine option names that the serializer writes. -/
def optionNames : List String :=
  ["--verbose", "--no-color", "--path", "--buildpack", "--network", "--builder",
    "--clear-cache", "--env", "--no-pull"]

/-- Every occurrence of the token `t` in the list that has a successor is
directly followed by an option name. -/
def followedByOption (t : String) : List String → Prop
  | a :: b :: l => (a = t → b ∈ optionNames) ∧ followedByOption t (b :: l)
  | _ => True

/-! ## Sample collaborators, used to run the model on concrete inputs

The `Image` type of the samples is `String`, whose zero value is `""`. -/

/-- An executable that writes to both of its writers and succeeds. -/
def sampleExecutable : Executable := fun _ =>
  { writes := [(Stream.Stdout, "building\n"), (Stream.Stderr, "warning\n"),
      (Stream.Stdout, "done\n")]
    stdout := ""
    stderr := ""
    err := none }

/-- An executable that writes to both of its writers and then fails. -/
def failingExecutable : Executable := fun _ =>
  { writes := [(Stream.Stdout, "building\n"), (Stream.Stderr, "boom\n")]
    stdout := ""
    stderr := ""
    err := some (GoError.errorString "exit status 1") }

/-- An image client that resolves every reference. -/
def sampleClient : DockerImageClient String := fun ref => ("sha256:" ++ ref, none)

/-- An image client that fails, returning a non-zero image next to its error. -/
def failingClient : DockerImageClient String := fun _ =>
  ("stale", some (GoError.errorString "no such image"))

/-- A world with no arrays, no buffers and no calls yet. -/
def emptyWorld : World := { arrays := [], buffers := [], calls := [] }

/-- A configuration built by three chained `WithBuildpacks` calls, and the
world it lives in. -/
def branchBase : PackBuild String × World :=
  (NewPack sampleExecutable sampleClient).Build.WithBuildpacksChain
    GrowthPolicy.doubling emptyWorld [["a"], ["b"], ["c"]]

/-- The first branch: `x := c.WithBuildpacks("x")`. -/
def branchX : PackBuild String × World :=
  branchBase.1.WithBuildpacks GrowthPolicy.doubling branchBase.2 ["x"]

/-- The second branch, made after the first: `y := c.WithBuildpacks("y")`. -/
def branchY : PackBuild String × World :=
  branchBase.1.WithBuildpacks GrowthPolicy.doubling branchX.2 ["y"]

/-! ## The order on strings and `sort.Strings` -/

theorem lessChars_iff_lex : ∀ a b : List Char,
    lessChars a b = true ↔ List.Lex (· < ·) a b
  | _, [] => by simp [lessChars]
  | [], _ :: _ => by simp [lessChars, List.Lex.nil]
  | a :: as, b :: bs => by
    have ih := lessChars_iff_lex as bs
    have hlt : a.toNat < b.toNat ↔ a < b := Iff.rfl
    unfold lessChars
    by_cases h1 : a < b
    · simp [hlt.mpr h1, List.Lex.rel h1]
    · by_cases h2 : a = b
      · subst h2
        simp [ih, List.Lex.cons_iff]
      · have h3 : ¬ a.toNat < b.toNat := fun h => h1 (hlt.mp h)
        simp only [h3, h2, if_false]
        constructor
        · intro h
          cases h
        · intro h
          cases h with
          | cons h => exact absurd rfl h2
          | rel h => exact absurd h h1

theorem stringLess_iff_lt (a b : String) : stringLess a b = true ↔ a < b := by
  rw [String.lt_iff_toList_lt]
  exact lessChars_iff_lex a.data b.data

theorem stringLess_eq_false_iff (a b : String) : stringLess a b = false ↔ b ≤ a := by
  rw [← not_lt, ← stringLess_iff_lt]
  simp

theorem insertString_perm (s : String) : ∀ l : List String, (insertString s l).Perm (s :: l)
  | [] => List.Perm.refl _
  | t :: ts => by
    unfold insertString
    split
    · exact ((insertString_perm s ts).cons t).trans (List.Perm.swap s t ts)
    · exact List.Perm.refl _

theorem sortStrings_perm : ∀ l : List String, (sortStrings l).Perm l
  | [] => List.Perm.refl _
  | s :: ss => (insertString_perm s (sortStrings ss)).trans ((sortStrings_perm ss).cons s)

theorem insertString_sorted (s : String) :
    ∀ l : List String, l.Sorted (· ≤ ·) → (insertString s l).Sorted (· ≤ ·)
  | [], _ => List.sorted_singleton s
  | t :: ts, h => by
    unfold insertString
    split
    · rename_i hlt
      have hts : t < s := (stringLess_iff_lt t s).mp hlt
      refine List.sorted_cons.mpr ⟨?_, insertString_sorted s ts h.of_cons⟩
      intro b hb
      rcases List.mem_cons.mp ((insertString_perm s ts).subset hb) with rfl | hb
      · exact hts.le
      · exact List.rel_of_sorted_cons h b hb
    · rename_i hlt
      have hst : s ≤ t := (stringLess_eq_false_iff t s).mp (by simpa using hlt)
      refine List.sorted_cons.mpr ⟨?_, h⟩
      intro b hb
      rcases List.mem_cons.mp hb with rfl | hb
      · exact hst
      · exact hst.trans (List.rel_of_sorted_cons h b hb)

theorem sortStrings_sorted : ∀ l : List String, (sortStrings l).Sorted (· ≤ ·)
  | [] => List.sorted_nil
  | s :: ss => insertString_sorted s _ (sortStrings_sorted ss)

/-- The result of `sortStrings` depends only on the multiset of its input. -/
theorem sortStrings_eq_of_perm {l₁ l₂ : List String} (h : l₁.Perm l₂) :
    sortStrings l₁ = sortStrings l₂ :=
  List.eq_of_perm_of_sorted
    ((sortStrings_perm l₁).trans (h.trans (sortStrings_perm l₂).symm))
    (sortStrings_sorted l₁) (sortStrings_sorted l₂)

theorem sortStrings_eq_insertionSort (l : List String) :
    sortStrings l = List.insertionSort (· ≤ ·) l :=
  List.eq_of_perm_of_sorted
    ((sortStrings_perm l).trans (List.perm_insertionSort _ l).symm)
    (sortStrings_sorted l) (List.sorted_insertionSort _ l)

/-! ## The argument list -/

theorem foldl_append_eq_flatMap {α : Type} (f : α → List String) :
    ∀ (l : List α) (init : List String),
      l.foldl (fun acc x => acc ++ f x) init = init ++ l.flatMap f
  | [], init => by simp
  | x :: xs, init => by
    simp [List.foldl_cons, foldl_append_eq_flatMap f xs, List.flatMap_cons, List.append_assoc]

theorem foldl_append_singleton_eq_map {α : Type} (f : α → String) :
    ∀ (l : List α) (init : List String),
      l.foldl (fun acc x => acc ++ [f x]) init = init ++ l.map f
  | [], init => by simp
  | x :: xs, init => by
    simp [List.foldl_cons, foldl_append_singleton_eq_map f xs, List.append_assoc]

theorem foldl_envTokens (env : List (String × String)) :
    env.foldl (fun vars kv => vars ++ [kv.1 ++ "=" ++ kv.2]) [] = envTokens env := by
  rw [foldl_append_singleton_eq_map (fun kv : String × String => kv.1 ++ "=" ++ kv.2) env []]
  simp [envTokens]

theorem ite_append_right {c : Prop} [Decidable c] (l x : List String) :
    (if c then l ++ x else l) = l ++ (if c then x else []) := by
  split <;> simp

theorem env_group (env : List (String × String)) (args : List String) :
    (if env.length ≠ 0 then
        (sortStrings (env.foldl (fun vars kv => vars ++ [kv.1 ++ "=" ++ kv.2]) [])).foldl
          (fun args v => args ++ ["--env", v]) args
      else args)
      = args ++ (List.insertionSort (· ≤ ·) (envTokens env)).flatMap (fun v => ["--env", v]) := by
  rw [foldl_envTokens, foldl_append_eq_flatMap, sortStrings_eq_insertionSort]
  cases env with
  | nil => simp [envTokens]
  | cons kv rest => simp

/-- The argument list computed by the code is the one the specification
describes. -/
theorem args_eq_specArgs (w : World) (pb : PackBuild Image) (name path : String) :
    pb.args w name path = specArgs w pb name path := by
  unfold PackBuild.args specArgs
  simp only [env_group]
  simp only [foldl_append_eq_flatMap, ite_append_right]

/-! ## Running the collaborators -/

theorem foldl_write_fresh (arrays : List (List String)) (calls : List Call)
    (bufs : List String) (e : Execution)
    (hout : e.Stdout = bufs.length) (herr : e.Stderr = bufs.length) :
    ∀ (ws : List (Stream × String)) (c : String),
      ws.foldl (fun (w : World) wr => w.write (e.writer wr.1) wr.2)
          (World.mk arrays (bufs ++ [c]) calls)
        = World.mk arrays (bufs ++ [c ++ concatStrings (ws.map Prod.snd)]) calls
  | [], c => by simp [concatStrings]
  | wr :: ws, c => by
    have hw : e.writer wr.1 = bufs.length := by
      cases wr.1 <;> simp [Execution.writer, hout, herr]
    rw [List.foldl_cons]
    have hstep : World.write (World.mk arrays (bufs ++ [c]) calls) (e.writer wr.1) wr.2
        = World.mk arrays (bufs ++ [c ++ wr.2]) calls := by
      simp [World.write, hw]
    rw [hstep, foldl_write_fresh arrays calls bufs e hout herr ws (c ++ wr.2)]
    simp [concatStrings, String.append_assoc]

theorem callExecutable_newBuffer (w : World) (pb : PackBuild Image) (name path : String) :
    w.newBuffer.2.callExecutable pb.executable (pb.execution w name path)
      = (pb.executable (pb.execution w name path), pb.afterExecutable w name path) := by
  unfold World.callExecutable World.newBuffer PackBuild.afterExecutable
  simp only []
  rw [foldl_write_fresh w.arrays _ w.buffers (pb.execution w name path) rfl rfl]
  simp [ExecutableResult.output]

/-- What `Execute` returns and leaves behind, by the outcome of the two
collaborator calls. -/
theorem Execute_eq [Inhabited Image] (w : World) (pb : PackBuild Image) (name path : String) :
    pb.Execute w name path =
      match (pb.executable (pb.execution w name path)).err with
      | some err =>
        ((default, w.buffers.length, some (fmtErrorfW "failed to pack build: " err)),
          pb.afterExecutable w name path)
      | none =>
        match (pb.dockerImageClient name).2 with
        | some err =>
          ((default, w.buffers.length, some (fmtErrorfW "failed to pack build: " err)),
            { pb.afterExecutable w name path with
              calls := (pb.afterExecutable w name path).calls ++ [Call.Inspect name] })
        | none =>
          (((pb.dockerImageClient name).1, w.buffers.length, none),
            { pb.afterExecutable w name path with
              calls := (pb.afterExecutable w name path).calls ++ [Call.Inspect name] }) := by
  have h := callExecutable_newBuffer w pb name path
  unfold PackBuild.Execute
  simp only [World.newBuffer] at h ⊢
  simp only [PackBuild.execution] at h
  simp only [h, World.callInspect]
  rfl

/-! ## Slices and `append` -/

theorem getD_set_self (l : List (List String)) (i : Nat) (x : List String)
    (h : i < l.length) : (l.set i x).getD i [] = x := by
  simp [List.getD_eq_getElem?_getD, List.getElem?_set, h]

theorem getD_of_length_le (l : List (List String)) (i : Nat) (h : l.length ≤ i) :
    l.getD i [] = [] := by
  simp [List.getD_eq_getElem?_getD, List.getElem?_eq_none h]

theorem length_writeAt (a : List String) (off : Nat) (xs : List String)
    (h : off + xs.length ≤ a.length) : (writeAt a off xs).length = a.length := by
  simp only [writeAt, List.length_append, List.length_take, List.length_drop]
  omega

theorem take_writeAt (a : List String) (off : Nat) (xs : List String)
    (h : off ≤ a.length) : (writeAt a off xs).take (off + xs.length) = a.take off ++ xs := by
  have hlen : (a.take off ++ xs).length = off + xs.length := by
    simp [List.length_take, Nat.min_eq_left h]
  unfold writeAt
  rw [← hlen, List.take_left]

/-- What `append` does on a valid slice: the result is a valid slice holding
the old elements followed by the new ones; buffers and calls are untouched. -/
theorem append_spec (g : GrowthPolicy) (w : World) (s : Slice) (xs : List String)
    (h : w.validSlice s) :
    (w.append g s xs).2.validSlice (w.append g s xs).1
      ∧ (w.append g s xs).2.load (w.append g s xs).1 = w.load s ++ xs
      ∧ (w.append g s xs).2.buffers = w.buffers
      ∧ (w.append g s xs).2.calls = w.calls := by
  obtain ⟨hlen, hcap⟩ := h
  unfold World.append
  by_cases hfit : s.len + xs.length ≤ s.cap
  · rw [if_pos hfit]
    by_cases harr : s.arr < w.arrays.length
    · have hget := getD_set_self w.arrays s.arr (writeAt (w.arrays.getD s.arr []) s.len xs) harr
      refine ⟨⟨hfit, ?_⟩, ?_, rfl, rfl⟩
      · show s.cap ≤ ((w.arrays.set s.arr _).getD s.arr []).length
        rw [hget, length_writeAt _ _ _ (by omega)]
        exact hcap
      · show ((w.arrays.set s.arr _).getD s.arr []).take (s.len + xs.length) = _
        rw [hget]
        exact take_writeAt _ _ _ (by omega)
    · have hnil : w.arrays.getD s.arr [] = [] := getD_of_length_le _ _ (by omega)
      rw [hnil] at hcap
      simp only [List.length_nil, Nat.le_zero_eq] at hcap
      have hxs : xs = [] := List.length_eq_zero.mp (by omega)
      have hset : w.arrays.set s.arr (writeAt (w.arrays.getD s.arr []) s.len xs) = w.arrays :=
        List.set_eq_of_length_le (by omega)
      rw [hset]
      refine ⟨⟨hfit, ?_⟩, ?_, rfl, rfl⟩
      · show s.cap ≤ (w.arrays.getD s.arr []).length
        omega
      · show (w.arrays.getD s.arr []).take (s.len + xs.length) = (w.arrays.getD s.arr []).take s.len ++ xs
        rw [hnil, hxs]
        simp
  · rw [if_neg hfit]
    have hnew : (w.arrays ++ [w.load s ++ xs ++
          List.replicate (g.newcap s.cap (s.len + xs.length) - (s.len + xs.length)) ""]).getD
          w.arrays.length []
        = w.load s ++ xs ++
          List.replicate (g.newcap s.cap (s.len + xs.length) - (s.len + xs.length)) "" := by
      simp [List.getD_eq_getElem?_getD]
    have hl : (w.load s).length = s.len := by
      unfold World.load
      rw [List.length_take]
      omega
    have hg := g.enough s.cap (s.len + xs.length)
    refine ⟨⟨hg, ?_⟩, ?_, rfl, rfl⟩
    · show g.newcap s.cap (s.len + xs.length) ≤ ((w.arrays ++ [_]).getD w.arrays.length []).length
      rw [hnew]
      simp only [List.length_append, List.length_replicate, hl]
      omega
    · show ((w.arrays ++ [_]).getD w.arrays.length []).take (s.len + xs.length) = _
      rw [hnew]
      have hlen2 : (w.load s ++ xs).length = s.len + xs.length := by
        simp [hl]
      rw [← hlen2, List.take_left]

/-- Chained `WithBuildpacks` calls on a valid buildpack slice: the slice stays
valid, holds the old identifiers followed by all appended ones in order, and
nothing else changes. -/
theorem WithBuildpacksChain_spec (g : GrowthPolicy) :
    ∀ (xss : List (List String)) (w : World) (pb : PackBuild Image),
      w.validSlice pb.buildpacks →
      (pb.WithBuildpacksChain g w xss).2.validSlice (pb.WithBuildpacksChain g w xss).1.buildpacks
        ∧ (pb.WithBuildpacksChain g w xss).2.load (pb.WithBuildpacksChain g w xss).1.buildpacks
            = w.load pb.buildpacks ++ xss.flatten
        ∧ (pb.WithBuildpacksChain g w xss).2.calls = w.calls
        ∧ (pb.WithBuildpacksChain g w xss).1
            = { pb with buildpacks := (pb.WithBuildpacksChain g w xss).1.buildpacks }
  | [], w, pb, h => ⟨h, by simp [PackBuild.WithBuildpacksChain], rfl, rfl⟩
  | xs :: xss, w, pb, h => by
    obtain ⟨hv, hl, _, hc⟩ := append_spec g w pb.buildpacks xs h
    obtain ⟨ihv, ihl, ihc, ihe⟩ := WithBuildpacksChain_spec g xss
      (pb.WithBuildpacks g w xs).2 (pb.WithBuildpacks g w xs).1 hv
    have hstep : pb.WithBuildpacksChain g w (xs :: xss)
        = PackBuild.WithBuildpacksChain g (pb.WithBuildpacks g w xs).2
            (pb.WithBuildpacks g w xs).1 xss := rfl
    have hl2 : (pb.WithBuildpacks g w xs).2.load (pb.WithBuildpacks g w xs).1.buildpacks
        = w.load pb.buildpacks ++ xs := hl
    have hc2 : (pb.WithBuildpacks g w xs).2.calls = w.calls := hc
    rw [hstep]
    refine ⟨ihv, ?_, ?_, ?_⟩
    · rw [ihl, hl2]
      simp
    · rw [ihc, hc2]
    · rw [ihe]
      rfl

/-! ## The calls `Execute` makes -/

theorem executableArgs_append (cs ds : List Call) :
    executableArgs (cs ++ ds) = executableArgs cs ++ executableArgs ds := by
  induction cs with
  | nil => rfl
  | cons c cs ih => cases c <;> simp [executableArgs, ih]

theorem Execute_calls [Inhabited Image] (w : World) (pb : PackBuild Image)
    (name path : String) :
    (pb.Execute w name path).2.calls =
      w.calls ++ Call.Execute (pb.execution w name path) ::
        (if (pb.executable (pb.execution w name path)).err.isNone then [Call.Inspect name]
          else []) := by
  rw [Execute_eq]
  cases (pb.executable (pb.execution w name path)).err with
  | some e => simp [PackBuild.afterExecutable]
  | none => cases (pb.dockerImageClient name).2 <;> simp [PackBuild.afterExecutable]

theorem Execute_executableArgs [Inhabited Image] (w : World) (pb : PackBuild Image)
    (name path : String) :
    executableArgs (pb.Execute w name path).2.calls =
      executableArgs w.calls ++ [pb.args w name path] := by
  rw [Execute_calls, executableArgs_append]
  cases (pb.executable (pb.execution w name path)).err <;>
    simp [executableArgs, PackBuild.execution]

/-! ## The environment group -/

theorem eq_of_append_equals_sign : ∀ (l₁ l₂ r₁ r₂ : List Char),
    '=' ∉ l₁ → '=' ∉ l₂ → l₁ ++ '=' :: r₁ = l₂ ++ '=' :: r₂ → l₁ = l₂ ∧ r₁ = r₂
  | [], [], _, _, _, _, h => by simpa using h
  | [], c :: l₂, _, _, _, h₂, h => by
    simp only [List.nil_append, List.cons_append, List.cons.injEq] at h
    exact absurd (List.mem_cons.mpr (Or.inl h.1)) h₂
  | c :: l₁, [], _, _, h₁, _, h => by
    simp only [List.nil_append, List.cons_append, List.cons.injEq] at h
    exact absurd (List.mem_cons.mpr (Or.inl h.1.symm)) h₁
  | c :: l₁, d :: l₂, r₁, r₂, h₁, h₂, h => by
    simp only [List.cons_append, List.cons.injEq] at h
    obtain ⟨hl, hr⟩ := eq_of_append_equals_sign l₁ l₂ r₁ r₂
      (fun hm => h₁ (List.mem_cons_of_mem _ hm)) (fun hm => h₂ (List.mem_cons_of_mem _ hm)) h.2
    exact ⟨by rw [h.1, hl], hr⟩

/-- Entries whose keys hold no `=` have the same `KEY=VALUE` string only when
they are the same entry. -/
theorem envToken_injective (kv₁ kv₂ : String × String)
    (h₁ : '=' ∉ kv₁.1.data) (h₂ : '=' ∉ kv₂.1.data)
    (h : kv₁.1 ++ "=" ++ kv₁.2 = kv₂.1 ++ "=" ++ kv₂.2) : kv₁ = kv₂ := by
  have hd := congrArg String.data h
  simp only [String.data_append] at hd
  have hd2 : kv₁.1.data ++ '=' :: kv₁.2.data = kv₂.1.data ++ '=' :: kv₂.2.data := by
    simpa using hd
  obtain ⟨hk, hv⟩ := eq_of_append_equals_sign _ _ _ _ h₁ h₂ hd2
  exact Prod.ext (String.ext hk) (String.ext hv)

theorem envTokens_nodup (env : List (String × String))
    (hkeys : (env.map Prod.fst).Nodup) (hsign : ∀ kv ∈ env, '=' ∉ kv.1.data) :
    (envTokens env).Nodup := by
  unfold envTokens
  refine List.Nodup.map_on ?_ (List.Nodup.of_map _ hkeys)
  intro a ha b hb hab
  exact envToken_injective a b (hsign a ha) (hsign b hb) hab

theorem sorted_lt_of_sorted_le_of_nodup {l : List String}
    (hs : l.Sorted (· ≤ ·)) (hn : l.Nodup) : l.Sorted (· < ·) := by
  have h := List.Pairwise.and hs hn
  exact h.imp (fun hab => lt_of_le_of_ne hab.1 hab.2)

/-- The argument list splits into the arguments of the same configuration
without environment and no-pull, the `--env` pairs, and the no-pull flag. -/
theorem args_split_env (w : World) (pb : PackBuild Image) (name path : String) :
    pb.args w name path =
      ({ pb with env := [], noPull := false } : PackBuild Image).args w name path
        ++ (sortStrings (envTokens pb.env)).flatMap (fun v => ["--env", v])
        ++ (if pb.noPull then ["--no-pull"] else []) := by
  rw [args_eq_specArgs, args_eq_specArgs, sortStrings_eq_insertionSort]
  simp [specArgs, envTokens]

/-! ## Occurrences of a flag token -/

theorem count_and_next_of_unique (t : String) :
    ∀ (pre post : List String), t ∉ pre → t ∉ post →
      (pre ++ t :: post).count t = 1 ∧ ∀ p q, pre ++ t :: post = p ++ t :: q → q = post
  | [], post, _, hpost => by
    refine ⟨by simp [List.count_eq_zero_of_not_mem hpost], ?_⟩
    intro p q h
    cases p with
    | nil => simpa using h.symm
    | cons a p =>
      simp only [List.nil_append, List.cons_append, List.cons.injEq] at h
      exact absurd (h.2 ▸ List.mem_append_right p (List.mem_cons_self t q)) hpost
  | a :: pre, post, hpre, hpost => by
    have hne : a ≠ t := fun h => hpre (h ▸ List.mem_cons_self a pre)
    obtain ⟨hc, hn⟩ := count_and_next_of_unique t pre post
      (fun hm => hpre (List.mem_cons_of_mem _ hm)) hpost
    refine ⟨?_, ?_⟩
    · rw [List.cons_append, List.count_cons_of_ne (Ne.symm hne)]
      exact hc
    · intro p q h
      cases p with
      | nil =>
        simp only [List.nil_append, List.cons_append, List.cons.injEq] at h
        exact absurd h.1 hne
      | cons b p =>
        simp only [List.cons_append, List.cons.injEq] at h
        exact hn p q h.2

theorem not_mem_envGroup (t : String) (ht : '=' ∉ t.data) (hne : t ≠ "--env")
    (env : List (String × String)) :
    t ∉ (sortStrings (envTokens env)).flatMap (fun v => ["--env", v]) := by
  intro hm
  obtain ⟨v, hv, htv⟩ := List.mem_flatMap.mp hm
  rcases List.mem_cons.mp htv with h | h
  · exact hne h
  · have htv2 : t = v := by simpa using h
    have hv2 : v ∈ envTokens env := (sortStrings_perm _).subset hv
    obtain ⟨kv, _, hkv⟩ := List.mem_map.mp hv2
    apply ht
    rw [htv2, ← hkv]
    simp [String.data_append]

theorem not_mem_buildpackGroup (t : String) (hne : t ≠ "--buildpack") (bs : List String)
    (hbs : t ∉ bs) : t ∉ bs.flatMap (fun b => ["--buildpack", b]) := by
  intro hm
  obtain ⟨b, hb, htb⟩ := List.mem_flatMap.mp hm
  rcases List.mem_cons.mp htb with h | h
  · exact hne h
  · have : t = b := by simpa using h
    exact hbs (this ▸ hb)

theorem flag_absent (t : String) (l : List String) (h : t ∉ l) :
    l.count t = 0 ∧ ∀ pre post, l = pre ++ t :: post →
      post.head? = none ∨ ∃ o ∈ flagFollowers, post.head? = some o := by
  refine ⟨List.count_eq_zero_of_not_mem h, ?_⟩
  intro pre post hl
  exact absurd (hl ▸ List.mem_append_right pre (List.mem_cons_self t post)) h

theorem flag_present (t : String) (l pre post : List String) (hl : l = pre ++ t :: post)
    (hpre : t ∉ pre) (hpost : t ∉ post)
    (hnext : post.head? = none ∨ ∃ o ∈ flagFollowers, post.head? = some o) :
    l.count t = 1 ∧ ∀ p q, l = p ++ t :: q →
      q.head? = none ∨ ∃ o ∈ flagFollowers, q.head? = some o := by
  obtain ⟨hc, hn⟩ := count_and_next_of_unique t pre post hpre hpost
  subst hl
  refine ⟨hc, ?_⟩
  intro p q h
  rw [hn p q h]
  exact hnext

theorem specArgs_flag (w : World) (pb : PackBuild Image) (name path : String)
    (f : BoolSetting) (hfree : f.token ∉ pb.suppliedValues w name path) :
    (specArgs w pb name path).count f.token = (if f.isOn pb then 1 else 0)
      ∧ ∀ pre post, specArgs w pb name path = pre ++ f.token :: post →
          post.head? = none ∨ ∃ o ∈ flagFollowers, post.head? = some o := by
  have henv : ∀ t : String, '=' ∉ t.data → t ≠ "--env" →
      t ∉ (List.insertionSort (· ≤ ·) (envTokens pb.env)).flatMap (fun v => ["--env", v]) := by
    intro t h1 h2
    rw [← sortStrings_eq_insertionSort]
    exact not_mem_envGroup t h1 h2 pb.env
  have hbp : ∀ t : String, t ≠ "--buildpack" → t ∉ w.load pb.buildpacks →
      t ∉ (w.load pb.buildpacks).flatMap (fun b => ["--buildpack", b]) :=
    fun t h1 h2 => not_mem_buildpackGroup t h1 _ h2
  simp only [PackBuild.suppliedValues, List.mem_append, List.mem_cons, List.mem_singleton,
    List.not_mem_nil, or_false, not_or] at hfree
  obtain ⟨⟨⟨hname, hpath⟩, hload⟩, hnet, hbld⟩ := hfree
  cases f with
  | verbose =>
    simp only [BoolSetting.token, BoolSetting.isOn] at hname hpath hload hnet hbld ⊢
    have he := henv "--verbose" (by decide) (by decide)
    have hb := hbp "--verbose" (by decide) hload
    rcases Bool.eq_false_or_eq_true pb.verbose with hv | hv
    · simp only [hv, if_true]
      refine flag_present _ _
        (["build", name])
        ((if pb.noColor then ["--no-color"] else [])
          ++ ["--path", path]
          ++ (w.load pb.buildpacks).flatMap (fun b => ["--buildpack", b])
          ++ (if pb.network ≠ "" then ["--network", pb.network] else [])
          ++ (if pb.builder ≠ "" then ["--builder", pb.builder] else [])
          ++ (if pb.clearCache then ["--clear-cache"] else [])
          ++ (List.insertionSort (· ≤ ·) (envTokens pb.env)).flatMap (fun v => ["--env", v])
          ++ (if pb.noPull then ["--no-pull"] else [])) ?_ ?_ ?_ ?_
      · simp [specArgs, hv]
      · simp [hname]
      · simp only [List.mem_append, not_or]
        refine ⟨⟨⟨⟨⟨⟨⟨?_, ?_⟩, ?_⟩, ?_⟩, ?_⟩, ?_⟩, ?_⟩, ?_⟩
        · split <;> simp
        · simp [hpath]
        · exact hb
        · split <;> simp [hnet]
        · split <;> simp [hbld]
        · split <;> simp
        · exact he
        · split <;> simp
      · rcases Bool.eq_false_or_eq_true pb.noColor with hc | hc <;>
          simp [hc, flagFollowers]
    · simp only [hv, Bool.false_eq_true, if_false]
      apply flag_absent
      simp only [specArgs, hv, List.mem_append, not_or]
      refine ⟨⟨⟨⟨⟨⟨⟨⟨⟨?_, ?_⟩, ?_⟩, ?_⟩, ?_⟩, ?_⟩, ?_⟩, ?_⟩, ?_⟩, ?_⟩
      · simp [hname]
      · simp
      · split <;> simp
      · simp [hpath]
      · exact hb
      · split <;> simp [hnet]
      · split <;> simp [hbld]
      · split <;> simp
      · exact he
      · split <;> simp
  | noColor =>
    simp only [BoolSetting.token, BoolSetting.isOn] at hname hpath hload hnet hbld ⊢
    have he := henv "--no-color" (by decide) (by decide)
    have hb := hbp "--no-color" (by decide) hload
    rcases Bool.eq_false_or_eq_true pb.noColor with hv | hv
    · simp only [hv, if_true]
      refine flag_present _ _
        (["build", name]
          ++ (if pb.verbose then ["--verbose"] else []))
        (["--path", path]
          ++ (w.load pb.buildpacks).flatMap (fun b => ["--buildpack", b])
          ++ (if pb.network ≠ "" then ["--network", pb.network] else [])
          ++ (if pb.builder ≠ "" then ["--builder", pb.builder] else [])
          ++ (if pb.clearCache then ["--clear-cache"] else [])
          ++ (List.insertionSort (· ≤ ·) (envTokens pb.env)).flatMap (fun v => ["--env", v])
          ++ (if pb.noPull then ["--no-pull"] else [])) ?_ ?_ ?_ ?_
      · simp [specArgs, hv]
      · simp only [List.mem_append, not_or]
        refine ⟨?_, ?_⟩
        · simp [hname]
        · split <;> simp
      · simp only [List.mem_append, not_or]
        refine ⟨⟨⟨⟨⟨⟨?_, ?_⟩, ?_⟩, ?_⟩, ?_⟩, ?_⟩, ?_⟩
        · simp [hpath]
        · exact hb
        · split <;> simp [hnet]
        · split <;> simp [hbld]
        · split <;> simp
        · exact he
        · split <;> simp
      · simp [flagFollowers]
    · simp only [hv, Bool.false_eq_true, if_false]
      apply flag_absent
      simp only [specArgs, hv, List.mem_append, not_or]
      refine ⟨⟨⟨⟨⟨⟨⟨⟨⟨?_, ?_⟩, ?_⟩, ?_⟩, ?_⟩, ?_⟩, ?_⟩, ?_⟩, ?_⟩, ?_⟩
      · simp [hname]
      · split <;> simp
      · simp
      · simp [hpath]
      · exact hb
      · split <;> simp [hnet]
      · split <;> simp [hbld]
      · split <;> simp
      · exact he
      · split <;> simp
  | clearCache =>
    simp only [BoolSetting.token, BoolSetting.isOn] at hname hpath hload hnet hbld ⊢
    have he := henv "--clear-cache" (by decide) (by decide)
    have hb := hbp "--clear-cache" (by decide) hload
    rcases Bool.eq_false_or_eq_true pb.clearCache with hv | hv
    · simp only [hv, if_true]
      refine flag_present _ _
        (["build", name]
          ++ (if pb.verbose then ["--verbose"] else [])
          ++ (if pb.noColor then ["--no-color"] else [])
          ++ ["--path", path]
          ++ (w.load pb.buildpacks).flatMap (fun b => ["--buildpack", b])
          ++ (if pb.network ≠ "" then ["--network", pb.network] else [])
          ++ (if pb.builder ≠ "" then ["--builder", pb.builder] else []))
        ((List.insertionSort (· ≤ ·) (envTokens pb.env)).flatMap (fun v => ["--env", v])
          ++ (if pb.noPull then ["--no-pull"] else [])) ?_ ?_ ?_ ?_
      · simp [specArgs, hv]
      · simp only [List.mem_append, not_or]
        refine ⟨⟨⟨⟨⟨⟨?_, ?_⟩, ?_⟩, ?_⟩, ?_⟩, ?_⟩, ?_⟩
        · simp [hname]
        · split <;> simp
        · split <;> simp
        · simp [hpath]
        · exact hb
        · split <;> simp [hnet]
        · split <;> simp [hbld]
      · simp only [List.mem_append, not_or]
        refine ⟨?_, ?_⟩
        · exact he
        · split <;> simp
      · generalize List.insertionSort (· ≤ ·) (envTokens pb.env) = vs
        cases vs <;> rcases Bool.eq_false_or_eq_true pb.noPull with hc | hc <;>
          simp [hc, flagFollowers]
    · simp only [hv, Bool.false_eq_true, if_false]
      apply flag_absent
      simp only [specArgs, hv, List.mem_append, not_or]
      refine ⟨⟨⟨⟨⟨⟨⟨⟨⟨?_, ?_⟩, ?_⟩, ?_⟩, ?_⟩, ?_⟩, ?_⟩, ?_⟩, ?_⟩, ?_⟩
      · simp [hname]
      · split <;> simp
      · split <;> simp
      · simp [hpath]
      · exact hb
      · split <;> simp [hnet]
      · split <;> simp [hbld]
      · simp
      · exact he
      · split <;> simp
  | noPull =>
    simp only [BoolSetting.token, BoolSetting.isOn] at hname hpath hload hnet hbld ⊢
    have he := henv "--no-pull" (by decide) (by decide)
    have hb := hbp "--no-pull" (by decide) hload
    rcases Bool.eq_false_or_eq_true pb.noPull with hv | hv
    · simp only [hv, if_true]
      refine flag_present _ _
        (["build", name]
          ++ (if pb.verbose then ["--verbose"] else [])
          ++ (if pb.noColor then ["--no-color"] else [])
          ++ ["--path", path]
          ++ (w.load pb.buildpacks).flatMap (fun b => ["--buildpack", b])
          ++ (if pb.network ≠ "" then ["--network", pb.network] else [])
          ++ (if pb.builder ≠ "" then ["--builder", pb.builder] else [])
          ++ (if pb.clearCache then ["--clear-cache"] else [])
          ++ (List.insertionSort (· ≤ ·) (envTokens pb.env)).flatMap (fun v => ["--env", v]))
        ([]) ?_ ?_ ?_ ?_
      · simp [specArgs, hv]
      · simp only [List.mem_append, not_or]
        refine ⟨⟨⟨⟨⟨⟨⟨⟨?_, ?_⟩, ?_⟩, ?_⟩, ?_⟩, ?_⟩, ?_⟩, ?_⟩, ?_⟩
        · simp [hname]
        · split <;> simp
        · split <;> simp
        · simp [hpath]
        · exact hb
        · split <;> simp [hnet]
        · split <;> simp [hbld]
        · split <;> simp
        · exact he
      · simp
      · simp
    · simp only [hv, Bool.false_eq_true, if_false]
      apply flag_absent
      simp only [specArgs, hv, List.mem_append, not_or]
      refine ⟨⟨⟨⟨⟨⟨⟨⟨⟨?_, ?_⟩, ?_⟩, ?_⟩, ?_⟩, ?_⟩, ?_⟩, ?_⟩, ?_⟩, ?_⟩
      · simp [hname]
      · split <;> simp
      · split <;> simp
      · simp [hpath]
      · exact hb
      · split <;> simp [hnet]
      · split <;> simp [hbld]
      · split <;> simp
      · exact he
      · simp

/-! ## Empty strings in the argument list -/

theorem emptyOnlyAsValue_tail (a : String) (l : List String)
    (h : emptyOnlyAsValue (a :: l)) : emptyOnlyAsValue l := by
  cases l with
  | nil => trivial
  | cons b l => exact h.2

theorem emptyOnlyAsValue_append : ∀ (l₁ l₂ : List String),
    emptyOnlyAsValue l₁ → emptyOnlyAsValue l₂ → (∀ y ∈ l₂.head?, y ≠ "") →
      emptyOnlyAsValue (l₁ ++ l₂)
  | [], _, _, h₂, _ => h₂
  | [a], [], _, _, _ => trivial
  | [a], b :: l₂, _, h₂, hhead =>
    ⟨fun hb => absurd hb (hhead b (by simp)), h₂⟩
  | a :: b :: l₁, l₂, h₁, h₂, hhead =>
    ⟨h₁.1, emptyOnlyAsValue_append (b :: l₁) l₂ h₁.2 h₂ hhead⟩

theorem emptyMayFollow_of_infix : ∀ (pre post : List String) (a : String),
    emptyOnlyAsValue (pre ++ a :: "" :: post) → emptyMayFollow a ""
  | [], _, _, h => h.1
  | p :: pre, post, a, h =>
    emptyMayFollow_of_infix pre post a (emptyOnlyAsValue_tail p _ h)

/-- A list that starts with a non-empty string (or is empty) and has empty
strings only where a value may be empty. -/
theorem group_append {l₁ l₂ : List String}
    (h₁ : emptyOnlyAsValue l₁ ∧ ∀ y ∈ l₁.head?, y ≠ "")
    (h₂ : emptyOnlyAsValue l₂ ∧ ∀ y ∈ l₂.head?, y ≠ "") :
    emptyOnlyAsValue (l₁ ++ l₂) ∧ ∀ y ∈ (l₁ ++ l₂).head?, y ≠ "" := by
  refine ⟨emptyOnlyAsValue_append l₁ l₂ h₁.1 h₂.1 h₂.2, ?_⟩
  cases l₁ with
  | nil => exact h₂.2
  | cons a l₁ => exact h₁.2

theorem group_flag (c : Prop) [Decidable c] (flag : String) (hflag : flag ≠ "") :
    emptyOnlyAsValue (if c then [flag] else [])
      ∧ ∀ y ∈ (if c then [flag] else []).head?, y ≠ "" := by
  split
  · exact ⟨trivial, by simpa using hflag⟩
  · exact ⟨trivial, by simp⟩

theorem group_option (c : Prop) [Decidable c] (flag value : String) (hflag : flag ≠ "")
    (hvalue : c → value ≠ "") :
    emptyOnlyAsValue (if c then [flag, value] else [])
      ∧ ∀ y ∈ (if c then [flag, value] else []).head?, y ≠ "" := by
  split
  · rename_i hc
    exact ⟨⟨fun h => absurd h (hvalue hc), trivial⟩, by simpa using hflag⟩
  · exact ⟨trivial, by simp⟩

theorem group_repeated (flag : String) (hflag : flag ≠ "") :
    ∀ vs : List String, (flag = "--buildpack" ∨ ∀ v ∈ vs, v ≠ "") →
      emptyOnlyAsValue (vs.flatMap (fun v => [flag, v]))
        ∧ ∀ y ∈ (vs.flatMap (fun v => [flag, v])).head?, y ≠ ""
  | [], _ => ⟨trivial, by simp⟩
  | v :: vs, h => by
    have ih := group_repeated flag hflag vs
      (h.imp id (fun hv x hx => hv x (List.mem_cons_of_mem _ hx)))
    have hpair : emptyOnlyAsValue [flag, v] ∧ ∀ y ∈ [flag, v].head?, y ≠ "" := by
      refine ⟨⟨?_, trivial⟩, by simpa using hflag⟩
      intro hv
      rcases h with h | h
      · exact Or.inr (Or.inr h)
      · exact absurd hv (h v (List.mem_cons_self v vs))
    rw [List.flatMap_cons]
    exact group_append hpair ih

theorem envToken_ne_empty (env : List (String × String)) :
    ∀ v ∈ sortStrings (envTokens env), v ≠ "" := by
  intro v hv hempty
  obtain ⟨kv, _, hkv⟩ := List.mem_map.mp ((sortStrings_perm _).subset hv)
  have hd := congrArg String.data (hkv.trans hempty)
  simp [String.data_append] at hd

/-- In every argument list an empty string stands only right after `build`,
`--path` or `--buildpack`. -/
theorem args_emptyOnlyAsValue (w : World) (pb : PackBuild Image) (name path : String) :
    emptyOnlyAsValue (pb.args w name path) := by
  rw [args_eq_specArgs]
  unfold specArgs
  rw [← sortStrings_eq_insertionSort]
  have h1 : emptyOnlyAsValue ["build", name] ∧ ∀ y ∈ ["build", name].head?, y ≠ "" :=
    ⟨⟨fun _ => Or.inl rfl, trivial⟩, by simp⟩
  have h2 := group_flag (pb.verbose = true) "--verbose" (by decide)
  have h3 := group_flag (pb.noColor = true) "--no-color" (by decide)
  have h4 : emptyOnlyAsValue ["--path", path] ∧ ∀ y ∈ ["--path", path].head?, y ≠ "" :=
    ⟨⟨fun _ => Or.inr (Or.inl rfl), trivial⟩, by simp⟩
  have h5 := group_repeated "--buildpack" (by decide) (w.load pb.buildpacks)
    (Or.inl rfl)
  have h6 := group_option (pb.network ≠ "") "--network" pb.network (by decide) id
  have h7 := group_option (pb.builder ≠ "") "--builder" pb.builder (by decide) id
  have h8 := group_flag (pb.clearCache = true) "--clear-cache" (by decide)
  have h9 := group_repeated "--env" (by decide)
    (sortStrings (envTokens pb.env)) (Or.inr (envToken_ne_empty pb.env))
  have h10 := group_flag (pb.noPull = true) "--no-pull" (by decide)
  exact (group_append (group_append (group_append (group_append (group_append (group_append
    (group_append (group_append (group_append h1 h2) h3) h4) h5) h6) h7) h8) h9) h10).1

/-! ## What follows a flag token -/

theorem followedByOption_tail (t a : String) (l : List String)
    (h : followedByOption t (a :: l)) : followedByOption t l := by
  cases l with
  | nil => trivial
  | cons b l => exact h.2

theorem followedByOption_append (t : String) : ∀ (l₁ l₂ : List String),
    followedByOption t l₁ → followedByOption t l₂ → (∀ y ∈ l₂.head?, y ∈ optionNames) →
      followedByOption t (l₁ ++ l₂)
  | [], _, _, h₂, _ => h₂
  | [_], [], _, _, _ => trivial
  | [_], b :: _, _, h₂, hhead => ⟨fun _ => hhead b (by simp), h₂⟩
  | _ :: b :: l₁, l₂, h₁, h₂, hhead =>
    ⟨h₁.1, followedByOption_append t (b :: l₁) l₂ h₁.2 h₂ hhead⟩

theorem head_of_followedByOption (t : String) : ∀ (pre post : List String),
    followedByOption t (pre ++ t :: post) →
      post.head? = none ∨ ∃ o ∈ optionNames, post.head? = some o
  | [], [], _ => Or.inl rfl
  | [], b :: _, h => Or.inr ⟨b, h.1 rfl, rfl⟩
  | a :: pre, post, h =>
    head_of_followedByOption t pre post (followedByOption_tail t a _ h)

theorem optionGroup_append {t : String} {l₁ l₂ : List String}
    (h₁ : followedByOption t l₁ ∧ ∀ y ∈ l₁.head?, y ∈ optionNames)
    (h₂ : followedByOption t l₂ ∧ ∀ y ∈ l₂.head?, y ∈ optionNames) :
    followedByOption t (l₁ ++ l₂) ∧ ∀ y ∈ (l₁ ++ l₂).head?, y ∈ optionNames := by
  refine ⟨followedByOption_append t l₁ l₂ h₁.1 h₂.1 h₂.2, ?_⟩
  cases l₁ with
  | nil => exact h₂.2
  | cons a l₁ => exact h₁.2

theorem optionGroup_flag (t : String) (c : Prop) [Decidable c] (flag : String)
    (hflag : flag ∈ optionNames) :
    followedByOption t (if c then [flag] else [])
      ∧ ∀ y ∈ (if c then [flag] else []).head?, y ∈ optionNames := by
  split
  · exact ⟨trivial, by simpa using hflag⟩
  · exact ⟨trivial, by simp⟩

theorem optionGroup_pair (t flag value : String) (hflag : flag ∈ optionNames)
    (hne : flag ≠ t) :
    followedByOption t [flag, value] ∧ ∀ y ∈ [flag, value].head?, y ∈ optionNames :=
  ⟨⟨fun h => absurd h hne, trivial⟩, by simpa using hflag⟩

theorem optionGroup_option (t : String) (c : Prop) [Decidable c] (flag value : String)
    (hflag : flag ∈ optionNames) (hne : flag ≠ t) :
    followedByOption t (if c then [flag, value] else [])
      ∧ ∀ y ∈ (if c then [flag, value] else []).head?, y ∈ optionNames := by
  split
  · exact optionGroup_pair t flag value hflag hne
  · exact ⟨trivial, by simp⟩

theorem optionGroup_repeated (t flag : String) (hflag : flag ∈ optionNames)
    (hne : flag ≠ t) :
    ∀ vs : List String,
      followedByOption t (vs.flatMap (fun v => [flag, v]))
        ∧ ∀ y ∈ (vs.flatMap (fun v => [flag, v])).head?, y ∈ optionNames
  | [] => ⟨trivial, by simp⟩
  | v :: vs => by
    rw [List.flatMap_cons]
    exact optionGroup_append (optionGroup_pair t flag v hflag hne)
      (optionGroup_repeated t flag hflag hne vs)

/-- In every argument list, each occurrence of the flag token of a boolean
setting ends the list or is directly followed by an option name. -/
theorem args_followedByOption (w : World) (pb : PackBuild Image) (name path : String)
    (f : BoolSetting) : followedByOption f.token (pb.args w name path) := by
  rw [args_eq_specArgs]
  unfold specArgs
  have hbuild : f.token ≠ "build" := by cases f <;> decide
  have hpath : "--path" ≠ f.token := by cases f <;> decide
  have hbuildpack : "--buildpack" ≠ f.token := by cases f <;> decide
  have hnetwork : "--network" ≠ f.token := by cases f <;> decide
  have hbuilder : "--builder" ≠ f.token := by cases f <;> decide
  have henv : "--env" ≠ f.token := by cases f <;> decide
  have h1 : followedByOption f.token ["build", name] :=
    ⟨fun h => absurd h.symm hbuild, trivial⟩
  have h2 := optionGroup_flag f.token (pb.verbose = true) "--verbose" (by decide)
  have h3 := optionGroup_flag f.token (pb.noColor = true) "--no-color" (by decide)
  have h4 := optionGroup_pair f.token "--path" path (by decide) hpath
  have h5 := optionGroup_repeated f.token "--buildpack" (by decide) hbuildpack
    (w.load pb.buildpacks)
  have h6 := optionGroup_option f.token (pb.network ≠ "") "--network" pb.network
    (by decide) hnetwork
  have h7 := optionGroup_option f.token (pb.builder ≠ "") "--builder" pb.builder
    (by decide) hbuilder
  have h8 := optionGroup_flag f.token (pb.clearCache = true) "--clear-cache" (by decide)
  have h9 := optionGroup_repeated f.token "--env" (by decide) henv
    (List.insertionSort (· ≤ ·) (envTokens pb.env))
  have h10 := optionGroup_flag f.token (pb.noPull = true) "--no-pull" (by decide)
  have hrest := optionGroup_append (optionGroup_append (optionGroup_append
    (optionGroup_append (optionGroup_append (optionGroup_append (optionGroup_append
      (optionGroup_append h2 h3) h4) h5) h6) h7) h8) h9) h10
  have hall := followedByOption_append f.token ["build", name] _ h1 hrest.1 hrest.2
  simpa only [List.append_assoc] using hall

/-! ## Claims -/

/-- C1: with no buildpacks, empty network and builder names, an empty
environment mapping and all four flags false, `Execute` calls the executable
once more, with exactly the arguments `build`, the name, `--path`, the path. -/
theorem C1_default_args [Inhabited Image] (w : World) (pb : PackBuild Image)
    (name path : String)
    (hbuildpacks : pb.buildpacks.len = 0) (hnetwork : pb.network = "")
    (hbuilder : pb.builder = "") (henv : pb.env = [])
    (hverbose : pb.verbose = false) (hnoColor : pb.noColor = false)
    (hclearCache : pb.clearCache = false) (hnoPull : pb.noPull = false) :
    executableArgs (pb.Execute w name path).2.calls =
      executableArgs w.calls ++ [["build", name, "--path", path]] := by
  rw [Execute_executableArgs]
  simp [PackBuild.args, World.load, hbuildpacks, hnetwork, hbuilder, henv, hverbose, hnoColor,
    hclearCache, hnoPull]

theorem C1_default_args_witness :
    executableArgs
        ((NewPack sampleExecutable sampleClient).Build.Execute emptyWorld "img" "/src").2.calls =
      executableArgs emptyWorld.calls ++ [["build", "img", "--path", "/src"]] :=
  C1_default_args emptyWorld (NewPack sampleExecutable sampleClient).Build "img" "/src"
    rfl rfl rfl rfl rfl rfl rfl rfl

/-- C2: for every configuration, name and path, the one argument list that
`Execute` passes to the executable is the concatenation, in this order, of
`build` and the name; `--verbose` if verbose; `--no-color` if no-color;
`--path` and the path; `--buildpack b` for each stored buildpack in order;
`--network` and the network if non-empty; `--builder` and the builder if
non-empty; `--clear-cache` if clear-cache; `--env v` for each `KEY=VALUE`
string of the environment in increasing order; `--no-pull` if no-pull. -/
theorem C2_args_in_fixed_order [Inhabited Image] (w : World) (pb : PackBuild Image)
    (name path : String) :
    executableArgs (pb.Execute w name path).2.calls =
      executableArgs w.calls ++
        [["build", name]
          ++ (if pb.verbose then ["--verbose"] else [])
          ++ (if pb.noColor then ["--no-color"] else [])
          ++ ["--path", path]
          ++ (w.load pb.buildpacks).flatMap (fun b => ["--buildpack", b])
          ++ (if pb.network ≠ "" then ["--network", pb.network] else [])
          ++ (if pb.builder ≠ "" then ["--builder", pb.builder] else [])
          ++ (if pb.clearCache then ["--clear-cache"] else [])
          ++ (List.insertionSort (· ≤ ·) (envTokens pb.env)).flatMap (fun v => ["--env", v])
          ++ (if pb.noPull then ["--no-pull"] else [])] := by
  rw [Execute_executableArgs, args_eq_specArgs]
  rfl

/-- C3: starting from any configuration whose buildpack slice is valid, after
chained `WithBuildpacks` calls with the lists `xss`, the argument list that
`Execute` passes has, right after `--path` and the path, one `--buildpack b`
pair for each `b` of the previous buildpacks followed by the appended lists, in
insertion order with duplicates kept; the other groups are those of the
starting configuration. -/
theorem C3_buildpacks_in_insertion_order [Inhabited Image] (g : GrowthPolicy) (w : World)
    (pb : PackBuild Image) (xss : List (List String)) (name path : String)
    (hvalid : w.validSlice pb.buildpacks) :
    executableArgs
        ((pb.WithBuildpacksChain g w xss).1.Execute
          (pb.WithBuildpacksChain g w xss).2 name path).2.calls =
      executableArgs w.calls ++
        [["build", name]
          ++ (if pb.verbose then ["--verbose"] else [])
          ++ (if pb.noColor then ["--no-color"] else [])
          ++ ["--path", path]
          ++ (w.load pb.buildpacks ++ xss.flatten).flatMap (fun b => ["--buildpack", b])
          ++ (if pb.network ≠ "" then ["--network", pb.network] else [])
          ++ (if pb.builder ≠ "" then ["--builder", pb.builder] else [])
          ++ (if pb.clearCache then ["--clear-cache"] else [])
          ++ (List.insertionSort (· ≤ ·) (envTokens pb.env)).flatMap (fun v => ["--env", v])
          ++ (if pb.noPull then ["--no-pull"] else [])] := by
  obtain ⟨_, hl, hc, he⟩ := WithBuildpacksChain_spec g xss w pb hvalid
  rw [Execute_executableArgs, args_eq_specArgs, hc]
  unfold specArgs
  rw [hl, he]

theorem C3_buildpacks_in_insertion_order_witness :
    executableArgs
        (((NewPack sampleExecutable sampleClient).Build.WithBuildpacksChain
            GrowthPolicy.doubling emptyWorld [["a"], ["b", "c"]]).1.Execute
          ((NewPack sampleExecutable sampleClient).Build.WithBuildpacksChain
            GrowthPolicy.doubling emptyWorld [["a"], ["b", "c"]]).2 "img" "/src").2.calls =
      [["build", "img", "--path", "/src", "--buildpack", "a", "--buildpack", "b",
        "--buildpack", "c"]] :=
  (C3_buildpacks_in_insertion_order GrowthPolicy.doubling emptyWorld
    (NewPack sampleExecutable sampleClient).Build [["a"], ["b", "c"]] "img" "/src"
    (by decide)).trans (by decide)

/-- C4 (as stated, refuted): the keys `a` and `a=` are distinct, yet with the
values `=b` and `b` both entries format to `a==b`, so the two tokens after the
`--env` flags are equal and not strictly ascending. -/
theorem C4_counterexample :
    ([("a", "=b"), ("a=", "b")].map Prod.fst).Nodup
      ∧ executableArgs
          (((NewPack sampleExecutable sampleClient).Build.WithEnv
            [("a", "=b"), ("a=", "b")]).Execute emptyWorld "img" "/src").2.calls
        = [["build", "img", "--path", "/src", "--env", "a==b", "--env", "a==b"]]
      ∧ ¬ (("a==b" : String) < "a==b") :=
  ⟨by decide, by decide, lt_irrefl _⟩

/-- C4 (amended): for every environment mapping with unique keys set with
`WithEnv`, the argument list ends with the `--env` pairs (before the no-pull
flag), whose values `vs` are the `KEY=VALUE` strings of the entries in
ascending order, each at most the next; the order is strictly ascending
whenever no key contains the character `=`. -/
theorem C4_env_tokens_ascending [Inhabited Image] (w : World) (pb : PackBuild Image)
    (env : List (String × String)) (name path : String)
    (hkeys : (env.map Prod.fst).Nodup) :
    ∃ vs : List String,
      executableArgs ((pb.WithEnv env).Execute w name path).2.calls =
          executableArgs w.calls ++
            [({ pb with env := [], noPull := false } : PackBuild Image).args w name path
              ++ vs.flatMap (fun v => ["--env", v])
              ++ (if pb.noPull then ["--no-pull"] else [])]
        ∧ vs.Perm (envTokens env)
        ∧ vs.Sorted (· ≤ ·)
        ∧ ((∀ kv ∈ env, '=' ∉ kv.1.data) → vs.Sorted (· < ·)) := by
  refine ⟨sortStrings (envTokens env), ?_, sortStrings_perm _, sortStrings_sorted _, ?_⟩
  · rw [Execute_executableArgs, args_split_env]
    rfl
  · intro hsign
    exact sorted_lt_of_sorted_le_of_nodup (sortStrings_sorted _)
      ((sortStrings_perm _).nodup_iff.mpr (envTokens_nodup env hkeys hsign))

theorem C4_env_tokens_ascending_witness :
    ∃ vs : List String,
      vs.Perm (envTokens [("B", "2"), ("A", "1")]) ∧ vs.Sorted (· < ·) := by
  obtain ⟨vs, _, hperm, _, hlt⟩ := C4_env_tokens_ascending emptyWorld
    (NewPack sampleExecutable sampleClient).Build [("B", "2"), ("A", "1")] "img" "/src"
    (by decide)
  exact ⟨vs, hperm, hlt (by decide)⟩

/-- C5: the argument list passed to the executable is the same for any two
enumerations of the entries of one environment mapping, all else equal. -/
theorem C5_env_order_irrelevant [Inhabited Image] (w : World) (pb : PackBuild Image)
    (env₁ env₂ : List (String × String)) (name path : String) (h : env₁.Perm env₂) :
    executableArgs ((pb.WithEnv env₁).Execute w name path).2.calls =
      executableArgs ((pb.WithEnv env₂).Execute w name path).2.calls := by
  have hs : sortStrings (envTokens env₁) = sortStrings (envTokens env₂) :=
    sortStrings_eq_of_perm (h.map _)
  rw [Execute_executableArgs, Execute_executableArgs, args_split_env,
    args_split_env w (pb.WithEnv env₂)]
  simp only [PackBuild.WithEnv, hs]

theorem C5_env_order_irrelevant_witness :
    executableArgs
        (((NewPack sampleExecutable sampleClient).Build.WithEnv
          [("B", "2"), ("A", "1")]).Execute emptyWorld "img" "/src").2.calls =
      executableArgs
        (((NewPack sampleExecutable sampleClient).Build.WithEnv
          [("A", "1"), ("B", "2")]).Execute emptyWorld "img" "/src").2.calls :=
  C5_env_order_irrelevant emptyWorld (NewPack sampleExecutable sampleClient).Build
    [("B", "2"), ("A", "1")] [("A", "1"), ("B", "2")] "img" "/src" (List.Perm.swap _ _ _)

/-- C6 (as stated, refuted): with verbose off and the image name `--verbose`,
the token `--verbose` occurs once in the argument list, not zero times. -/
theorem C6_counterexample :
    BoolSetting.verbose.isOn (NewPack sampleExecutable sampleClient).Build = false
      ∧ executableArgs ((NewPack sampleExecutable sampleClient).Build.Execute
          emptyWorld "--verbose" "/src").2.calls
        = [["build", "--verbose", "--path", "/src"]]
      ∧ List.count BoolSetting.verbose.token ["build", "--verbose", "--path", "/src"] = 1 :=
  ⟨by decide, by decide, by decide⟩

/-- C6 (amended): for every configuration, image name and source path, and for
each of the four boolean settings: its setter turns the setting on; wherever
its flag token occurs in the argument list passed to the executable, it ends
the list or is directly followed by an option name, never by a value of its
own; and provided the token is not itself the image name, the source path, a
buildpack, the network or the builder name, it occurs exactly once when the
setting is on and zero times when it is off. -/
theorem C6_flag_once_without_value [Inhabited Image] (w : World) (p : Pack Image)
    (name path : String) (f : BoolSetting) :
    f.isOn (f.turnOn p).Build = true
      ∧ executableArgs (p.Build.Execute w name path).2.calls =
          executableArgs w.calls ++ [p.Build.args w name path]
      ∧ (∀ pre post, p.Build.args w name path = pre ++ f.token :: post →
          post.head? = none ∨ ∃ o ∈ optionNames, post.head? = some o)
      ∧ (f.token ∉ p.Build.suppliedValues w name path →
          (p.Build.args w name path).count f.token = (if f.isOn p.Build then 1 else 0)) := by
  refine ⟨by cases f <;> rfl, Execute_executableArgs w p.Build name path, ?_, ?_⟩
  · intro pre post h
    have hall := args_followedByOption w p.Build name path f
    rw [h] at hall
    exact head_of_followedByOption f.token pre post hall
  · intro hfree
    rw [args_eq_specArgs]
    exact (specArgs_flag w p.Build name path f hfree).1

theorem C6_flag_once_without_value_witness :
    BoolSetting.verbose.token ∉
        (NewPack sampleExecutable sampleClient).WithVerbose.Build.suppliedValues
          emptyWorld "img" "/src"
      ∧ ((NewPack sampleExecutable sampleClient).WithVerbose.Build.args
          emptyWorld "img" "/src").count BoolSetting.verbose.token =
        (if BoolSetting.verbose.isOn (NewPack sampleExecutable sampleClient).WithVerbose.Build
          then 1 else 0) :=
  ⟨by decide,
    (C6_flag_once_without_value emptyWorld (NewPack sampleExecutable sampleClient).WithVerbose
      "img" "/src" BoolSetting.verbose).2.2.2 (by decide)⟩

/-- C7: if the executable returns the error `e`, `Execute` returns the zero
`Image`, an error whose message is `failed to pack build: ` followed by the
message of `e` and which unwraps to `e`, and a log buffer that holds exactly
what the executable wrote to its two writers before failing. -/
theorem C7_executable_failure [Inhabited Image] (w : World) (pb : PackBuild Image)
    (name path : String) (e : GoError)
    (hfail : (pb.executable (pb.execution w name path)).err = some e) :
    (pb.Execute w name path).1.1 = default
      ∧ (∃ err, (pb.Execute w name path).1.2.2 = some err
          ∧ err.Error = "failed to pack build: " ++ e.Error ∧ err.Unwrap = some e)
      ∧ (pb.Execute w name path).2.bufferString (pb.Execute w name path).1.2.1
          = (pb.executable (pb.execution w name path)).output := by
  rw [Execute_eq, hfail]
  refine ⟨rfl, ⟨_, rfl, rfl, rfl⟩, ?_⟩
  simp [World.bufferString, PackBuild.afterExecutable, List.getD_eq_getElem?_getD]

theorem C7_executable_failure_witness :
    ((NewPack failingExecutable sampleClient).Build.Execute emptyWorld "img" "/src").1.1 = ""
      ∧ (∃ err, ((NewPack failingExecutable sampleClient).Build.Execute
            emptyWorld "img" "/src").1.2.2 = some err
          ∧ err.Error = "failed to pack build: " ++ (GoError.errorString "exit status 1").Error
          ∧ err.Unwrap = some (GoError.errorString "exit status 1"))
      ∧ ((NewPack failingExecutable sampleClient).Build.Execute
            emptyWorld "img" "/src").2.bufferString
          ((NewPack failingExecutable sampleClient).Build.Execute emptyWorld "img" "/src").1.2.1
          = (failingExecutable ((NewPack failingExecutable sampleClient).Build.execution
              emptyWorld "img" "/src")).output :=
  C7_executable_failure emptyWorld (NewPack failingExecutable sampleClient).Build "img" "/src"
    (GoError.errorString "exit status 1") rfl

/-- C8: if the executable succeeds and the image client returns the error `e`
(next to whatever image value), `Execute` returns the zero `Image`, an error
whose message is `failed to pack build: ` followed by the message of `e` and
which unwraps to `e`, and the log buffer filled by the process run. -/
theorem C8_inspect_failure [Inhabited Image] (w : World) (pb : PackBuild Image)
    (name path : String) (e : GoError)
    (hrun : (pb.executable (pb.execution w name path)).err = none)
    (hfail : (pb.dockerImageClient name).2 = some e) :
    (pb.Execute w name path).1.1 = default
      ∧ (∃ err, (pb.Execute w name path).1.2.2 = some err
          ∧ err.Error = "failed to pack build: " ++ e.Error ∧ err.Unwrap = some e)
      ∧ (pb.Execute w name path).2.bufferString (pb.Execute w name path).1.2.1
          = (pb.executable (pb.execution w name path)).output := by
  rw [Execute_eq, hrun, hfail]
  refine ⟨rfl, ⟨_, rfl, rfl, rfl⟩, ?_⟩
  simp [World.bufferString, PackBuild.afterExecutable, List.getD_eq_getElem?_getD]

theorem C8_inspect_failure_witness :
    (failingClient "img").1 = "stale"
      ∧ ((NewPack sampleExecutable failingClient).Build.Execute emptyWorld "img" "/src").1.1 = ""
      ∧ (∃ err, ((NewPack sampleExecutable failingClient).Build.Execute
            emptyWorld "img" "/src").1.2.2 = some err
          ∧ err.Error = "failed to pack build: " ++ (GoError.errorString "no such image").Error
          ∧ err.Unwrap = some (GoError.errorString "no such image"))
      ∧ ((NewPack sampleExecutable failingClient).Build.Execute
            emptyWorld "img" "/src").2.bufferString
          ((NewPack sampleExecutable failingClient).Build.Execute emptyWorld "img" "/src").1.2.1
          = (sampleExecutable ((NewPack sampleExecutable failingClient).Build.execution
              emptyWorld "img" "/src")).output :=
  ⟨rfl, C8_inspect_failure emptyWorld (NewPack sampleExecutable failingClient).Build
    "img" "/src" (GoError.errorString "no such image") rfl rfl⟩

/-- C9: if both collaborators succeed, `Execute` returns the very image that
the image client returned for the name given to `Execute`, the log buffer
holding all the executable wrote, and a nil error; and `Execute` returns a nil
error only when both collaborators succeed. -/
theorem C9_success [Inhabited Image] (w : World) (pb : PackBuild Image)
    (name path : String) :
    ((pb.executable (pb.execution w name path)).err = none
        → (pb.dockerImageClient name).2 = none
        → (pb.Execute w name path).1.1 = (pb.dockerImageClient name).1
          ∧ (pb.Execute w name path).1.2.2 = none
          ∧ (pb.Execute w name path).2.bufferString (pb.Execute w name path).1.2.1
              = (pb.executable (pb.execution w name path)).output)
      ∧ ((pb.Execute w name path).1.2.2 = none
          ↔ (pb.executable (pb.execution w name path)).err = none
            ∧ (pb.dockerImageClient name).2 = none) := by
  rw [Execute_eq]
  cases hrun : (pb.executable (pb.execution w name path)).err with
  | some e => simp
  | none =>
    cases hinspect : (pb.dockerImageClient name).2 with
    | some e => simp
    | none =>
      simp [World.bufferString, PackBuild.afterExecutable, List.getD_eq_getElem?_getD]

theorem C9_success_witness :
    ((NewPack sampleExecutable sampleClient).Build.Execute emptyWorld "img" "/src").1.1
        = "sha256:img"
      ∧ ((NewPack sampleExecutable sampleClient).Build.Execute emptyWorld "img" "/src").1.2.2
        = none
      ∧ ((NewPack sampleExecutable sampleClient).Build.Execute
            emptyWorld "img" "/src").2.bufferString
          ((NewPack sampleExecutable sampleClient).Build.Execute emptyWorld "img" "/src").1.2.1
        = "building\nwarning\ndone\n" :=
  (C9_success emptyWorld (NewPack sampleExecutable sampleClient).Build "img" "/src").1 rfl rfl

/-- C10: every run of `Execute` adds to the record of collaborator calls
exactly one call of the executable, followed by one call of the image client
with the name given to `Execute` if the executable returned no error, and by
nothing otherwise. -/
theorem C10_call_sequence [Inhabited Image] (w : World) (pb : PackBuild Image)
    (name path : String) :
    (pb.Execute w name path).2.calls =
      w.calls ++ Call.Execute (pb.execution w name path) ::
        (if (pb.executable (pb.execution w name path)).err = none then [Call.Inspect name]
          else []) := by
  rw [Execute_calls]
  cases (pb.executable (pb.execution w name path)).err <;> simp

/-- C11: `WithEnv` replaces the mapping wholesale.  `WithEnv(e1).WithEnv(e2)`
is the configuration `WithEnv(e2)` and passes the same argument list; the
values after the `--env` flags are exactly the `KEY=VALUE` strings of the
entries of `e2`, whatever `e1` was; and after `WithEnv` of the empty mapping
the argument list has no `--env` pair at all. -/
theorem C11_WithEnv_replaces [Inhabited Image] (w : World) (pb : PackBuild Image)
    (e₁ e₂ : List (String × String)) (name path : String) :
    (pb.WithEnv e₁).WithEnv e₂ = pb.WithEnv e₂
      ∧ executableArgs (((pb.WithEnv e₁).WithEnv e₂).Execute w name path).2.calls =
          executableArgs ((pb.WithEnv e₂).Execute w name path).2.calls
      ∧ (∃ vs : List String, vs.Perm (envTokens e₂)
          ∧ executableArgs (((pb.WithEnv e₁).WithEnv e₂).Execute w name path).2.calls =
              executableArgs w.calls ++
                [({ pb with env := [], noPull := false } : PackBuild Image).args w name path
                  ++ vs.flatMap (fun v => ["--env", v])
                  ++ (if pb.noPull then ["--no-pull"] else [])])
      ∧ executableArgs (((pb.WithEnv e₁).WithEnv []).Execute w name path).2.calls =
          executableArgs w.calls ++
            [["build", name]
              ++ (if pb.verbose then ["--verbose"] else [])
              ++ (if pb.noColor then ["--no-color"] else [])
              ++ ["--path", path]
              ++ (w.load pb.buildpacks).flatMap (fun b => ["--buildpack", b])
              ++ (if pb.network ≠ "" then ["--network", pb.network] else [])
              ++ (if pb.builder ≠ "" then ["--builder", pb.builder] else [])
              ++ (if pb.clearCache then ["--clear-cache"] else [])
              ++ (if pb.noPull then ["--no-pull"] else [])] := by
  refine ⟨rfl, rfl, ⟨sortStrings (envTokens e₂), sortStrings_perm _, ?_⟩, ?_⟩
  · rw [Execute_executableArgs, args_split_env]
    rfl
  · rw [Execute_executableArgs, args_eq_specArgs]
    simp [specArgs, PackBuild.WithEnv, envTokens]

/-- C12: `WithNetwork` and `WithBuilder` are last-write-wins.  Setting `a` and
then `b` gives the configuration that setting `b` alone gives, and the argument
list holds the single group `--network b` (or `--builder b`) when `b` is
non-empty and no such group when `b` is empty.  In the argument list passed for
any configuration, neither `--network` nor `--builder` is ever directly
followed by an empty string. -/
theorem C12_last_write_wins [Inhabited Image] (w : World) (pb : PackBuild Image)
    (a b name path : String) :
    (pb.WithNetwork a).WithNetwork b = pb.WithNetwork b
      ∧ (pb.WithBuilder a).WithBuilder b = pb.WithBuilder b
      ∧ executableArgs (((pb.WithNetwork a).WithNetwork b).Execute w name path).2.calls =
          executableArgs w.calls ++
            [["build", name]
              ++ (if pb.verbose then ["--verbose"] else [])
              ++ (if pb.noColor then ["--no-color"] else [])
              ++ ["--path", path]
              ++ (w.load pb.buildpacks).flatMap (fun x => ["--buildpack", x])
              ++ (if b ≠ "" then ["--network", b] else [])
              ++ (if pb.builder ≠ "" then ["--builder", pb.builder] else [])
              ++ (if pb.clearCache then ["--clear-cache"] else [])
              ++ (List.insertionSort (· ≤ ·) (envTokens pb.env)).flatMap
                  (fun v => ["--env", v])
              ++ (if pb.noPull then ["--no-pull"] else [])]
      ∧ executableArgs (((pb.WithBuilder a).WithBuilder b).Execute w name path).2.calls =
          executableArgs w.calls ++
            [["build", name]
              ++ (if pb.verbose then ["--verbose"] else [])
              ++ (if pb.noColor then ["--no-color"] else [])
              ++ ["--path", path]
              ++ (w.load pb.buildpacks).flatMap (fun x => ["--buildpack", x])
              ++ (if pb.network ≠ "" then ["--network", pb.network] else [])
              ++ (if b ≠ "" then ["--builder", b] else [])
              ++ (if pb.clearCache then ["--clear-cache"] else [])
              ++ (List.insertionSort (· ≤ ·) (envTokens pb.env)).flatMap
                  (fun v => ["--env", v])
              ++ (if pb.noPull then ["--no-pull"] else [])]
      ∧ executableArgs (pb.Execute w name path).2.calls =
          executableArgs w.calls ++ [pb.args w name path]
      ∧ (∀ pre post, pb.args w name path ≠ pre ++ "--network" :: "" :: post)
      ∧ (∀ pre post, pb.args w name path ≠ pre ++ "--builder" :: "" :: post) := by
  refine ⟨rfl, rfl, ?_, ?_, Execute_executableArgs w pb name path, ?_, ?_⟩
  · rw [Execute_executableArgs, args_eq_specArgs]
    rfl
  · rw [Execute_executableArgs, args_eq_specArgs]
    rfl
  · intro pre post h
    have hok := args_emptyOnlyAsValue w pb name path
    rw [h] at hok
    have hfollow := emptyMayFollow_of_infix pre post "--network" hok rfl
    revert hfollow
    decide
  · intro pre post h
    have hok := args_emptyOnlyAsValue w pb name path
    rw [h] at hok
    have hfollow := emptyMayFollow_of_infix pre post "--builder" hok rfl
    revert hfollow
    decide

/-- C15: for every environment mapping, the argument list holds exactly one
`--env` pair per entry, and the values of the pairs are a permutation of the
`KEY=VALUE` strings of the entries: none dropped, duplicated or altered. -/
theorem C15_one_env_pair_per_entry [Inhabited Image] (w : World) (pb : PackBuild Image)
    (env : List (String × String)) (name path : String) :
    ∃ vs : List String,
      executableArgs ((pb.WithEnv env).Execute w name path).2.calls =
          executableArgs w.calls ++
            [["build", name]
              ++ (if pb.verbose then ["--verbose"] else [])
              ++ (if pb.noColor then ["--no-color"] else [])
              ++ ["--path", path]
              ++ (w.load pb.buildpacks).flatMap (fun b => ["--buildpack", b])
              ++ (if pb.network ≠ "" then ["--network", pb.network] else [])
              ++ (if pb.builder ≠ "" then ["--builder", pb.builder] else [])
              ++ (if pb.clearCache then ["--clear-cache"] else [])
              ++ vs.flatMap (fun v => ["--env", v])
              ++ (if pb.noPull then ["--no-pull"] else [])]
        ∧ vs.length = env.length
        ∧ vs.Perm (env.map (fun kv => kv.1 ++ "=" ++ kv.2)) := by
  refine ⟨sortStrings (envTokens env), ?_, ?_, sortStrings_perm _⟩
  · rw [Execute_executableArgs, args_eq_specArgs, sortStrings_eq_insertionSort]
    rfl
  · rw [(sortStrings_perm _).length_eq]
    simp [envTokens]

/-- C16: the execution that `Execute` passes to the executable has one and the
same buffer as `Stdout` and as `Stderr`; that buffer is new (no buffer of the
starting world) and empty when created; it is the log that `Execute` returns;
and when `Execute` returns, whatever the outcome, it holds all the writes of
the executable to either writer, concatenated in the order they were made. -/
theorem C16_one_shared_log_buffer [Inhabited Image] (w : World) (pb : PackBuild Image)
    (name path : String) :
    ∃ (e : Execution) (rest : List Call),
      (pb.Execute w name path).2.calls = w.calls ++ Call.Execute e :: rest
        ∧ e.Stdout = (pb.Execute w name path).1.2.1
        ∧ e.Stderr = (pb.Execute w name path).1.2.1
        ∧ (pb.Execute w name path).1.2.1 = w.newBuffer.1
        ∧ ¬ (pb.Execute w name path).1.2.1 < w.buffers.length
        ∧ w.newBuffer.2.bufferString w.newBuffer.1 = ""
        ∧ (pb.Execute w name path).2.bufferString (pb.Execute w name path).1.2.1
            = concatStrings ((pb.executable e).writes.map Prod.snd) := by
  refine ⟨pb.execution w name path, _, Execute_calls w pb name path, ?_⟩
  have hlog : (pb.Execute w name path).1.2.1 = w.buffers.length := by
    rw [Execute_eq]
    cases (pb.executable (pb.execution w name path)).err with
    | some e => rfl
    | none => cases (pb.dockerImageClient name).2 <;> rfl
  have hcontent : (pb.Execute w name path).2.bufferString w.buffers.length
      = (pb.executable (pb.execution w name path)).output := by
    rw [Execute_eq]
    cases (pb.executable (pb.execution w name path)).err with
    | some e =>
      simp [World.bufferString, PackBuild.afterExecutable, List.getD_eq_getElem?_getD]
    | none =>
      cases (pb.dockerImageClient name).2 <;>
        simp [World.bufferString, PackBuild.afterExecutable, List.getD_eq_getElem?_getD]
  rw [hlog]
  refine ⟨rfl, rfl, rfl, Nat.lt_irrefl _, ?_, hcontent⟩
  simp [World.newBuffer, World.bufferString, List.getD_eq_getElem?_getD]

/-- C13 (violated by the code): `c` is built by three chained `WithBuildpacks`
calls, so its slice has length 3 and capacity 4.  `x := c.WithBuildpacks("x")`
holds `a, b, c, x`; then `y := c.WithBuildpacks("y")` appends in place into the
same backing array: `y` holds `a, b, c, y` and `c` is unchanged, but `x` now
holds `a, b, c, y`, and that is what `Execute` on `x` passes. -/
theorem C13_second_branch_overwrites_first :
    branchBase.1.buildpacks = { arr := 2, len := 3, cap := 4 }
      ∧ branchX.2.load branchX.1.buildpacks = ["a", "b", "c", "x"]
      ∧ branchY.2.load branchY.1.buildpacks = ["a", "b", "c", "y"]
      ∧ branchY.2.load branchBase.1.buildpacks = ["a", "b", "c"]
      ∧ branchY.2.load branchX.1.buildpacks = ["a", "b", "c", "y"]
      ∧ executableArgs (branchX.1.Execute branchY.2 "img" "/src").2.calls
          = [["build", "img", "--path", "/src", "--buildpack", "a", "--buildpack", "b",
              "--buildpack", "c", "--buildpack", "y"]] := by
  decide

/-- C14: for each of the ten setters, every field of the returned
configuration other than the one the setter names equals that field of the
receiver; and every setter other than `WithBuildpacks` leaves the world, hence
the stored buildpacks, as it was. -/
theorem C14_setter_changes_only_its_field (g : GrowthPolicy) (w : World) (p : Pack Image)
    (s : Setter Image) (fld : Field) (hother : fld ≠ s.field) :
    (s.apply g w p).1.Build.sameField p.Build fld
      ∧ (s.field ≠ Field.buildpacks → (s.apply g w p).2 = w) := by
  constructor
  · cases s <;> cases fld <;> first | rfl | exact absurd rfl hother
  · intro hs
    cases s <;> first | rfl | exact absurd rfl hs

theorem C14_setter_changes_only_its_field_witness :
    ((Setter.WithNetwork "host").apply GrowthPolicy.doubling branchBase.2
          ⟨branchBase.1⟩).1.Build.sameField branchBase.1 Field.buildpacks
      ∧ ((Setter.WithNetwork "host").apply GrowthPolicy.doubling branchBase.2
          ⟨branchBase.1⟩).2 = branchBase.2 :=
  ⟨(C14_setter_changes_only_its_field GrowthPolicy.doubling branchBase.2 ⟨branchBase.1⟩
      (Setter.WithNetwork "host") Field.buildpacks (by decide)).1,
    (C14_setter_changes_only_its_field GrowthPolicy.doubling branchBase.2 ⟨branchBase.1⟩
      (Setter.WithNetwork "host") Field.buildpacks (by decide)).2 (by decide)⟩

/-- C17: two setter calls that name different settings commute: made in either
order on any configuration they give the same configuration (and the same
world), and so `Execute` passes the same argument list. -/
theorem C17_setters_commute [Inhabited Image] (g : GrowthPolicy) (w : World) (p : Pack Image)
    (s t : Setter Image) (name path : String) (hdiff : s.field ≠ t.field) :
    t.apply g (s.apply g w p).2 (s.apply g w p).1
        = s.apply g (t.apply g w p).2 (t.apply g w p).1
      ∧ executableArgs
          ((t.apply g (s.apply g w p).2 (s.apply g w p).1).1.Build.Execute
            (t.apply g (s.apply g w p).2 (s.apply g w p).1).2 name path).2.calls
        = executableArgs
          ((s.apply g (t.apply g w p).2 (t.apply g w p).1).1.Build.Execute
            (s.apply g (t.apply g w p).2 (t.apply g w p).1).2 name path).2.calls := by
  have h : t.apply g (s.apply g w p).2 (s.apply g w p).1
      = s.apply g (t.apply g w p).2 (t.apply g w p).1 := by
    cases s <;> cases t <;> first | rfl | exact absurd rfl hdiff
  exact ⟨h, by rw [h]⟩

theorem C17_setters_commute_witness :
    executableArgs
        (((Setter.WithNetwork "host").apply GrowthPolicy.doubling
            ((Setter.WithBuildpacks ["a", "b"]).apply GrowthPolicy.doubling emptyWorld
              (NewPack sampleExecutable sampleClient)).2
            ((Setter.WithBuildpacks ["a", "b"]).apply GrowthPolicy.doubling emptyWorld
              (NewPack sampleExecutable sampleClient)).1).1.Build.Execute
          ((Setter.WithNetwork "host").apply GrowthPolicy.doubling
            ((Setter.WithBuildpacks ["a", "b"]).apply GrowthPolicy.doubling emptyWorld
              (NewPack sampleExecutable sampleClient)).2
            ((Setter.WithBuildpacks ["a", "b"]).apply GrowthPolicy.doubling emptyWorld
              (NewPack sampleExecutable sampleClient)).1).2 "img" "/src").2.calls
      = executableArgs
        (((Setter.WithBuildpacks ["a", "b"]).apply GrowthPolicy.doubling
            ((Setter.WithNetwork "host").apply GrowthPolicy.doubling emptyWorld
              (NewPack sampleExecutable sampleClient)).2
            ((Setter.WithNetwork "host").apply GrowthPolicy.doubling emptyWorld
              (NewPack sampleExecutable sampleClient)).1).1.Build.Execute
          ((Setter.WithBuildpacks ["a", "b"]).apply GrowthPolicy.doubling
            ((Setter.WithNetwork "host").apply GrowthPolicy.doubling emptyWorld
              (NewPack sampleExecutable sampleClient)).2
            ((Setter.WithNetwork "host").apply GrowthPolicy.doubling emptyWorld
              (NewPack sampleExecutable sampleClient)).1).2 "img" "/src").2.calls :=
  (C17_setters_commute GrowthPolicy.doubling emptyWorld (NewPack sampleExecutable sampleClient)
    (Setter.WithBuildpacks ["a", "b"]) (Setter.WithNetwork "host") "img" "/src"
    (by decide)).2

end Occam
